import Mathlib

/-
Verification of the AIGP Python SDK (sdks/python/aigp_otel) against its
natural-language specification.

The development shallowly embeds the relevant source files:
  - events.py       : governance hashing, Merkle engine, canonical JSON,
                      JWS ES256 event signing and verification
  - tracestate.py   : the aigp vendor entry of the W3C tracestate header
  - instrumentor.py : the per-trace monotonic sequence counter

Machine bytes are modelled as natural numbers below 256, byte strings as
List Nat, and Python str as Lean String (a list of unicode code points,
encoded to UTF-8 bytes exactly where the source calls str.encode).
hashlib's SHA-256/384/512 are implemented concretely (FIPS 180-4), so all
hash values are computed, never assumed.  The third-party `cryptography`
package's P-256 ECDSA primitive is the only abstracted component: it is
passed to sign/verify as an explicit function parameter, with its standard
correctness properties taken as hypotheses where a claim needs them.
-/

set_option maxRecDepth 100000

namespace AGP

/-! ## Byte-level preliminaries -/

/-- Truncate to a 32-bit word, as Python ints never overflow but SHA-2 words do. -/
def w32 (n : Nat) : Nat := n % 4294967296

/-- Truncate to a 64-bit word. -/
def w64 (n : Nat) : Nat := n % 18446744073709551616

/-- Rotate a 32-bit word right by n bits. -/
def rotr32 (n x : Nat) : Nat := w32 ((x >>> n) ||| (x <<< (32 - n)))

/-- Rotate a 64-bit word right by n bits. -/
def rotr64 (n x : Nat) : Nat := w64 ((x >>> n) ||| (x <<< (64 - n)))

/-- Split a list into chunks of k elements; fuel bounds the recursion and is
always instantiated with the list length. -/
def chunksAux {α : Type} (fuel k : Nat) (l : List α) : List (List α) :=
  match fuel, l with
  | 0, _ => []
  | _, [] => []
  | f + 1, l => l.take k :: chunksAux f k (l.drop k)

/-- Big-endian bytes to Nat (Python int.from_bytes(..., "big")). -/
def bytesToNatBE (bs : List Nat) : Nat := bs.foldl (fun a b => a * 256 + b) 0

/-- Nat to k big-endian bytes (Python int.to_bytes(k, "big")). -/
def natToBytesBE : Nat → Nat → List Nat
  | 0, _ => []
  | k + 1, v => natToBytesBE k (v / 256) ++ [v % 256]

/-- Lowercase hexadecimal digit. -/
def hexDigitChar (n : Nat) : Char :=
  if n < 10 then Char.ofNat (48 + n) else Char.ofNat (87 + n)

/-- Two lowercase hex characters of one byte. -/
def byteToHexChars (b : Nat) : List Char := [hexDigitChar (b / 16), hexDigitChar (b % 16)]

/-- Lowercase hex string of a byte list (hashlib's hexdigest output format). -/
def bytesToHex (bs : List Nat) : String :=
  String.mk (bs.foldr (fun b acc => byteToHexChars b ++ acc) [])

/-- UTF-8 encoding of one code point (RFC 3629). -/
def utf8EncodeChar (c : Char) : List Nat :=
  if c.toNat < 0x80 then [c.toNat]
  else if c.toNat < 0x800 then [0xc0 + c.toNat / 64, 0x80 + c.toNat % 64]
  else if c.toNat < 0x10000 then
    [0xe0 + c.toNat / 4096, 0x80 + c.toNat / 64 % 64, 0x80 + c.toNat % 64]
  else
    [0xf0 + c.toNat / 262144, 0x80 + c.toNat / 4096 % 64,
     0x80 + c.toNat / 64 % 64, 0x80 + c.toNat % 64]

/-- Python str.encode("utf-8"). -/
def utf8Bytes (s : String) : List Nat := s.data.foldr (fun c acc => utf8EncodeChar c ++ acc) []

/-- utf8Bytes on the underlying character list. -/
def utf8ListBytes (l : List Char) : List Nat := l.foldr (fun c acc => utf8EncodeChar c ++ acc) []

/-- Decoder for one UTF-8 encoded code point off the front of a byte list.
Used only to prove that utf8EncodeChar concatenations are uniquely
decodable, hence injective. -/
def utf8DecodeOne : List Nat → Option (Char × List Nat)
  | [] => none
  | b1 :: rest =>
    if b1 < 0x80 then some (Char.ofNat b1, rest)
    else if b1 < 0xe0 then
      match rest with
      | b2 :: rest2 => some (Char.ofNat ((b1 - 0xc0) * 64 + (b2 - 0x80)), rest2)
      | _ => none
    else if b1 < 0xf0 then
      match rest with
      | b2 :: b3 :: rest2 =>
        some (Char.ofNat ((b1 - 0xe0) * 4096 + (b2 - 0x80) * 64 + (b3 - 0x80)), rest2)
      | _ => none
    else
      match rest with
      | b2 :: b3 :: b4 :: rest2 =>
        some (Char.ofNat ((b1 - 0xf0) * 262144 + (b2 - 0x80) * 4096 +
          (b3 - 0x80) * 64 + (b4 - 0x80)), rest2)
      | _ => none

/-! ## SHA-256 (FIPS 180-4), as used by hashlib.sha256 -/

def bsig0 (x : Nat) : Nat := rotr32 2 x ^^^ rotr32 13 x ^^^ rotr32 22 x
def bsig1 (x : Nat) : Nat := rotr32 6 x ^^^ rotr32 11 x ^^^ rotr32 25 x
def ssig0 (x : Nat) : Nat := rotr32 7 x ^^^ rotr32 18 x ^^^ (x >>> 3)
def ssig1 (x : Nat) : Nat := rotr32 17 x ^^^ rotr32 19 x ^^^ (x >>> 10)

def K256 : List Nat := [
  1116352408, 1899447441, 3049323471, 3921009573, 961987163, 1508970993,
  2453635748, 2870763221, 3624381080, 310598401, 607225278, 1426881987,
  1925078388, 2162078206, 2614888103, 3248222580, 3835390401, 4022224774,
  264347078, 604807628, 770255983, 1249150122, 1555081692, 1996064986,
  2554220882, 2821834349, 2952996808, 3210313671, 3336571891, 3584528711,
  113926993, 338241895, 666307205, 773529912, 1294757372, 1396182291,
  1695183700, 1986661051, 2177026350, 2456956037, 2730485921, 2820302411,
  3259730800, 3345764771, 3516065817, 3600352804, 4094571909, 275423344,
  430227734, 506948616, 659060556, 883997877, 958139571, 1322822218,
  1537002063, 1747873779, 1955562222, 2024104815, 2227730452, 2361852424,
  2428436474, 2756734187, 3204031479, 3329325298]

def sha256InitH : List Nat := [
  1779033703, 3144134277, 1013904242, 2773480762,
  1359893119, 2600822924, 528734635, 1541459225]

/-- Extend 16 message-schedule words to 64 (fuel is always 48). -/
def extendW (fuel : Nat) (w : List Nat) : List Nat :=
  match fuel with
  | 0 => w
  | f + 1 =>
    let i := w.length
    let nw := w32 (ssig1 (w.getD (i - 2) 0) + w.getD (i - 7) 0 +
                   ssig0 (w.getD (i - 15) 0) + w.getD (i - 16) 0)
    extendW f (w ++ [nw])

def sha256Round (st : Nat × Nat × Nat × Nat × Nat × Nat × Nat × Nat) (kw : Nat) :
    Nat × Nat × Nat × Nat × Nat × Nat × Nat × Nat :=
  let (a, b, c, d, e, f, g, h) := st
  let ch := (e &&& f) ^^^ ((e ^^^ 0xffffffff) &&& g)
  let t1 := w32 (h + bsig1 e + ch + kw)
  let maj := (a &&& b) ^^^ (a &&& c) ^^^ (b &&& c)
  let t2 := w32 (bsig0 a + maj)
  (w32 (t1 + t2), a, b, c, w32 (d + t1), e, f, g)

def sha256Compress (h : List Nat) (block : List Nat) : List Nat :=
  let words := (chunksAux block.length 4 block).map bytesToNatBE
  let ws := extendW 48 words
  let kws := List.zipWith (fun k w => w32 (k + w)) K256 ws
  match h with
  | [h0, h1, h2, h3, h4, h5, h6, h7] =>
    let (a, b, c, d, e, f, g, hh) := kws.foldl sha256Round (h0, h1, h2, h3, h4, h5, h6, h7)
    [w32 (h0 + a), w32 (h1 + b), w32 (h2 + c), w32 (h3 + d),
     w32 (h4 + e), w32 (h5 + f), w32 (h6 + g), w32 (h7 + hh)]
  | other => other

/-- Merkle-Damgard padding: 0x80, zeros, 8-byte big-endian bit length. -/
def sha256Pad (msg : List Nat) : List Nat :=
  let len := msg.length
  let zeros := (64 - (len + 9) % 64) % 64
  msg ++ [0x80] ++ List.replicate zeros 0 ++ natToBytesBE 8 (len * 8)

def sha256Bytes (msg : List Nat) : List Nat :=
  let padded := sha256Pad msg
  let blocks := chunksAux padded.length 64 padded
  let final := blocks.foldl sha256Compress sha256InitH
  (final.map (natToBytesBE 4)).flatten

/-- hashlib.sha256(s.encode("utf-8")).hexdigest(). -/
def sha256Hex (s : String) : String := bytesToHex (sha256Bytes (utf8Bytes s))

/-! ## SHA-512 and SHA-384 (FIPS 180-4), for the other two algorithm tags -/

def bsig0w (x : Nat) : Nat := rotr64 28 x ^^^ rotr64 34 x ^^^ rotr64 39 x
def bsig1w (x : Nat) : Nat := rotr64 14 x ^^^ rotr64 18 x ^^^ rotr64 41 x
def ssig0w (x : Nat) : Nat := rotr64 1 x ^^^ rotr64 8 x ^^^ (x >>> 7)
def ssig1w (x : Nat) : Nat := rotr64 19 x ^^^ rotr64 61 x ^^^ (x >>> 6)

def K512 : List Nat := [
  4794697086780616226, 8158064640168781261, 13096744586834688815,
  16840607885511220156, 4131703408338449720, 6480981068601479193,
  10538285296894168987, 12329834152419229976, 15566598209576043074,
  1334009975649890238, 2608012711638119052, 6128411473006802146,
  8268148722764581231, 9286055187155687089, 11230858885718282805,
  13951009754708518548, 16472876342353939154, 17275323862435702243,
  1135362057144423861, 2597628984639134821, 3308224258029322869,
  5365058923640841347, 6679025012923562964, 8573033837759648693,
  10970295158949994411, 12119686244451234320, 12683024718118986047,
  13788192230050041572, 14330467153632333762, 15395433587784984357,
  489312712824947311, 1452737877330783856, 2861767655752347644,
  3322285676063803686, 5560940570517711597, 5996557281743188959,
  7280758554555802590, 8532644243296465576, 9350256976987008742,
  10552545826968843579, 11727347734174303076, 12113106623233404929,
  14000437183269869457, 14369950271660146224, 15101387698204529176,
  15463397548674623760, 17586052441742319658, 1182934255886127544,
  1847814050463011016, 2177327727835720531, 2830643537854262169,
  3796741975233480872, 4115178125766777443, 5681478168544905931,
  6601373596472566643, 7507060721942968483, 8399075790359081724,
  8693463985226723168, 9568029438360202098, 10144078919501101548,
  10430055236837252648, 11840083180663258601, 13761210420658862357,
  14299343276471374635, 14566680578165727644, 15097957966210449927,
  16922976911328602910, 17689382322260857208, 500013540394364858,
  748580250866718886, 1242879168328830382, 1977374033974150939,
  2944078676154940804, 3659926193048069267, 4368137639120453308,
  4836135668995329356, 5532061633213252278, 6448918945643986474,
  6902733635092675308, 7801388544844847127]

def sha512InitH : List Nat := [
  7640891576956012808, 13503953896175478587,
  4354685564936845355, 11912009170470909681,
  5840696475078001361, 11170449401992604703,
  2270897969802886507, 6620516959819538809]

def sha384InitH : List Nat := [
  14680500436340154072, 7105036623409894663,
  10473403895298186519, 1526699215303891257,
  7436329637833083697, 10282925794625328401,
  15784041429090275239, 5167115440072839076]

def extendW64 (fuel : Nat) (w : List Nat) : List Nat :=
  match fuel with
  | 0 => w
  | f + 1 =>
    let i := w.length
    let nw := w64 (ssig1w (w.getD (i - 2) 0) + w.getD (i - 7) 0 +
                   ssig0w (w.getD (i - 15) 0) + w.getD (i - 16) 0)
    extendW64 f (w ++ [nw])

def sha512Round (st : Nat × Nat × Nat × Nat × Nat × Nat × Nat × Nat) (kw : Nat) :
    Nat × Nat × Nat × Nat × Nat × Nat × Nat × Nat :=
  let (a, b, c, d, e, f, g, h) := st
  let ch := (e &&& f) ^^^ ((e ^^^ 0xffffffffffffffff) &&& g)
  let t1 := w64 (h + bsig1w e + ch + kw)
  let maj := (a &&& b) ^^^ (a &&& c) ^^^ (b &&& c)
  let t2 := w64 (bsig0w a + maj)
  (w64 (t1 + t2), a, b, c, w64 (d + t1), e, f, g)

def sha512Compress (h : List Nat) (block : List Nat) : List Nat :=
  let words := (chunksAux block.length 8 block).map bytesToNatBE
  let ws := extendW64 64 words
  let kws := List.zipWith (fun k w => w64 (k + w)) K512 ws
  match h with
  | [h0, h1, h2, h3, h4, h5, h6, h7] =>
    let (a, b, c, d, e, f, g, hh) := kws.foldl sha512Round (h0, h1, h2, h3, h4, h5, h6, h7)
    [w64 (h0 + a), w64 (h1 + b), w64 (h2 + c), w64 (h3 + d),
     w64 (h4 + e), w64 (h5 + f), w64 (h6 + g), w64 (h7 + hh)]
  | other => other

def sha512Pad (msg : List Nat) : List Nat :=
  let len := msg.length
  let zeros := (128 - (len + 17) % 128) % 128
  msg ++ [0x80] ++ List.replicate zeros 0 ++ natToBytesBE 16 (len * 8)

def sha512BytesFrom (init : List Nat) (msg : List Nat) : List Nat :=
  let padded := sha512Pad msg
  let blocks := chunksAux padded.length 128 padded
  let final := blocks.foldl sha512Compress init
  (final.map (natToBytesBE 8)).flatten

/-- hashlib.sha512(s.encode("utf-8")).hexdigest(). -/
def sha512Hex (s : String) : String := bytesToHex (sha512BytesFrom sha512InitH (utf8Bytes s))

/-- hashlib.sha384(s.encode("utf-8")).hexdigest(): SHA-512 with its own IV,
truncated to the first 48 bytes. -/
def sha384Hex (s : String) : String :=
  bytesToHex ((sha512BytesFrom sha384InitH (utf8Bytes s)).take 48)

/-! ## events.py: governance hash primitives -/

/-- events.compute_governance_hash: dispatch on the algorithm tag, raising
ValueError (modelled as Except.error) for an unsupported tag. -/
def compute_governance_hash (content : String) (algorithm : String) :
    Except String String :=
  if algorithm = "sha256" then .ok (sha256Hex content)
  else if algorithm = "sha384" then .ok (sha384Hex content)
  else if algorithm = "sha512" then .ok (sha512Hex content)
  else .error ("Unsupported hash algorithm: " ++ algorithm)

def isLowerAlpha (c : Char) : Bool := 97 ≤ c.toNat && c.toNat ≤ 122

def isDigitChar (c : Char) : Bool := 48 ≤ c.toNat && c.toNat ≤ 57

def isLowerAlnum (c : Char) : Bool := isLowerAlpha c || isDigitChar c

/-- Tail of the resource-type pattern after the leading lowercase letter:
the regular language [a-z0-9]*(-[a-z0-9]+)*$ over a char list, i.e. runs of
lowercase alphanumerics where every dash is followed by at least one
alphanumeric and dashes are never adjacent or trailing. -/
def rtypeTail : List Char → Bool
  | [] => true
  | c :: cs =>
    if c = '-' then
      match cs with
      | [] => false
      | d :: ds => isLowerAlnum d && rtypeTail ds
    else isLowerAlnum c && rtypeTail cs

/-- Full anchored match of the pattern against a character list. -/
def rtypeCore : List Char → Bool
  | [] => false
  | c :: cs => isLowerAlpha c && rtypeTail cs

/-- events._RESOURCE_TYPE_PATTERN.match: the anchored regex from events.py
line 24, lowercase kebab-case, with Python re semantics for the dollar
anchor: it matches at the end of the string and also just before one
trailing newline, so a string ending in a single newline matches whenever
the part before it does. -/
def rtypeMatches (s : String) : Bool :=
  rtypeCore s.data ||
    (match s.data.getLast? with
     | some c => c == '\n' && rtypeCore s.data.dropLast
     | none => false)

/-- events.compute_leaf_hash: validates the resource type, requires
content_ref under pointer mode, and hashes the domain-separated string
resource_type:resource_name:hashable. -/
def compute_leaf_hash (resource_type resource_name content : String)
    (hash_mode : String) (content_ref : String) :
    Except String String :=
  if rtypeMatches resource_type = false then
    .error ("Invalid resource_type: " ++ resource_type)
  else if hash_mode = "pointer" ∧ content_ref = "" then
    .error "content_ref is required when hash_mode is pointer"
  else
    let hashable := if hash_mode = "pointer" then content_ref else content
    .ok (sha256Hex (resource_type ++ ":" ++ resource_name ++ ":" ++ hashable))

/-! ## events.py: Merkle engine -/

/-- One level of the pairing loop in events._compute_merkle_root: combine
adjacent pairs left to right; an unpaired trailing element is promoted
unchanged. -/
def combineLevel : List String → List String
  | a :: b :: rest => sha256Hex (a ++ b) :: combineLevel rest
  | l => l

/-- The while-loop of events._compute_merkle_root; fuel bounds the number of
iterations and is always instantiated with the initial level length, which
suffices since every iteration shrinks the level. -/
def merkleLoop : Nat → List String → List String
  | 0, level => level
  | f + 1, level => if level.length ≤ 1 then level else merkleLoop f (combineLevel level)

/-- events._compute_merkle_root: raises on an empty list, returns a single
hash unchanged, otherwise folds levels until one root remains. -/
def _compute_merkle_root (sorted_hashes : List String) : Except String String :=
  match sorted_hashes with
  | [] => .error "Cannot compute Merkle root of empty list"
  | [h] => .ok h
  | l => .ok ((merkleLoop l.length l).headD "")

/-- The Merkle root exactly as the specification words it (section 4.2): fold
pairwise left-to-right, promote the unpaired last element unchanged, repeat
until one hash remains.  Used as the spec-side reference for refinement. -/
def specMerkleRootAux : Nat → List String → String
  | _, [] => ""
  | _, [x] => x
  | 0, l => l.headD ""
  | f + 1, l => specMerkleRootAux f (combineLevel l)

def specMerkleRoot (hs : List String) : String := specMerkleRootAux hs.length hs

/-- A governed resource in the normalized dict form of events.py
(_normalize_resource output): the .get defaults of the dict form are already
applied, so every key is present. -/
structure Resource where
  resource_type : String
  resource_name : String
  content : String
  hash_mode : String
  content_ref : String
  deriving Repr, DecidableEq

/-- Input to compute_merkle_governance_hash: either a
(resource_type, resource_name, content) tuple or a dict. -/
inductive RawResource where
  | tup (resource_type resource_name content : String)
  | dict (r : Resource)
  deriving Repr, DecidableEq

/-- events._normalize_resource: the tuple form gets hash_mode "content" and
empty content_ref; the dict form keeps its fields (with defaults applied). -/
def _normalize_resource : RawResource → Resource
  | .tup t n c => ⟨t, n, c, "content", ""⟩
  | .dict r => r

/-- A Merkle leaf record as built by compute_merkle_governance_hash:
hash_mode and content_ref keys are present only when non-default. -/
structure MerkleLeaf where
  resource_type : String
  resource_name : String
  hash : String
  hash_mode : Option String
  content_ref : Option String
  deriving Repr, DecidableEq

/-- The governance_merkle_tree object. -/
structure MerkleTree where
  algorithm : String
  leaf_count : Nat
  leaves : List MerkleLeaf
  deriving Repr, DecidableEq

/-- The leaf record for one normalized resource entry, with the optional
keys included exactly when events.py includes them. -/
def mkLeaf (entry : Resource) (leaf_hash : String) : MerkleLeaf :=
  { resource_type := entry.resource_type
    resource_name := entry.resource_name
    hash := leaf_hash
    hash_mode := if entry.hash_mode ≠ "content" then some entry.hash_mode else none
    content_ref := if entry.content_ref ≠ "" then some entry.content_ref else none }

/-- The leaf-building for-loop of compute_merkle_governance_hash: sequential,
the first leaf-hash ValueError propagates. -/
def buildLeaves : List Resource → Except String (List MerkleLeaf)
  | [] => .ok []
  | entry :: rest =>
    match compute_leaf_hash entry.resource_type entry.resource_name entry.content
        entry.hash_mode entry.content_ref with
    | .error e => .error e
    | .ok h =>
      match buildLeaves rest with
      | .error e => .error e
      | .ok ls => .ok (mkLeaf entry h :: ls)

/-- Python list.sort(key=lambda leaf: leaf["hash"]): a stable sort by the
hash field.  Modelled with insertion sort, which is also stable, so it agrees
with Python's stable sort on every input. -/
def leafLE (a b : MerkleLeaf) : Prop := a.hash ≤ b.hash

instance : DecidableRel leafLE := fun a b => inferInstanceAs (Decidable (a.hash ≤ b.hash))

instance : IsTotal MerkleLeaf leafLE := ⟨fun a b => le_total a.hash b.hash⟩

instance : IsTrans MerkleLeaf leafLE := ⟨fun _ _ _ h₁ h₂ => le_trans h₁ h₂⟩

def sortLeaves (ls : List MerkleLeaf) : List MerkleLeaf := List.insertionSort leafLE ls

/-- events.compute_merkle_governance_hash: empty input raises; a single
resource degenerates to a flat hash of its hashable content with no tree;
two or more resources build the sorted-leaf Merkle tree. -/
def compute_merkle_governance_hash (resources : List RawResource) :
    Except String (String × Option MerkleTree) :=
  match resources with
  | [] => .error "At least one resource is required"
  | _ =>
    let normalized := resources.map _normalize_resource
    match normalized with
    | [entry] =>
      let hashable := if entry.hash_mode = "pointer" then entry.content_ref else entry.content
      match compute_governance_hash hashable "sha256" with
      | .error e => .error e
      | .ok flat_hash => .ok (flat_hash, none)
    | _ =>
      match buildLeaves normalized with
      | .error e => .error e
      | .ok leaves =>
        let sorted := sortLeaves leaves
        let sorted_hashes := sorted.map MerkleLeaf.hash
        match _compute_merkle_root sorted_hashes with
        | .error e => .error e
        | .ok root =>
          .ok (root, some { algorithm := "sha256", leaf_count := leaves.length, leaves := sorted })

/-! ## Small Python string helpers used by tracestate.py -/

/-- Python str.split(sep) on a char list ("" splits to [""]). -/
def splitCharAux (sep : Char) : List Char → List (List Char)
  | [] => [[]]
  | c :: cs =>
    match splitCharAux sep cs with
    | [] => [[c]]
    | h :: t => if c = sep then [] :: h :: t else (c :: h) :: t

def pySplit (sep : Char) (s : String) : List String := (splitCharAux sep s.data).map String.mk

/-- Python str.split(sep, 1) when sep occurs: the part before the first sep
and everything after it; none when sep does not occur. -/
def splitOnceAux (sep : Char) : List Char → Option (List Char × List Char)
  | [] => none
  | c :: cs =>
    if c = sep then some ([], cs)
    else (splitOnceAux sep cs).map (fun p => (c :: p.1, p.2))

def isPySpace (c : Char) : Bool :=
  c = ' ' || c = '\t' || c = '\n' || c = '\r' || c.toNat = 11 || c.toNat = 12

/-- Python str.strip() (over the ASCII whitespace actually reachable in
tracestate header values). -/
def pyStrip (s : String) : String :=
  String.mk (((s.data.dropWhile isPySpace).reverse.dropWhile isPySpace).reverse)

def startsWithChars : List Char → List Char → Bool
  | [], _ => true
  | _, [] => false
  | p :: ps, c :: cs => p = c && startsWithChars ps cs

/-- Python str.startswith. -/
def pyStartsWith (pat s : String) : Bool := startsWithChars pat.data s.data

def digitChar (n : Nat) : Char := Char.ofNat (48 + n)

def natToDigits : Nat → Nat → List Char
  | 0, n => [digitChar (n % 10)]
  | f + 1, n => if n < 10 then [digitChar n] else natToDigits f (n / 10) ++ [digitChar (n % 10)]

/-- Python str(n) for a natural number. -/
def natToString (n : Nat) : String := String.mk (natToDigits n n)

/-- Python str(i) for an int. -/
def intToString (i : Int) : String :=
  if i < 0 then "-" ++ natToString i.natAbs else natToString i.natAbs

/-- Join a list of strings with a separator (Python sep.join). -/
def joinSep (sep : String) : List String → String
  | [] => ""
  | [s] => s
  | s :: rest => s ++ sep ++ joinSep sep rest

/-- Python-dict set item on an association list: replace in place when the
key exists, else append. -/
def dictSet : List (String × String) → String → String → List (String × String)
  | [], k, v => [(k, v)]
  | (k0, v0) :: rest, k, v =>
    if k0 = k then (k, v) :: rest else (k0, v0) :: dictSet rest k v

/-- Python dict.get(key, default) on an association list. -/
def lookupD : List (String × String) → String → String → String
  | [], _, d => d
  | (k0, v0) :: rest, k, d => if k0 = k then v0 else lookupD rest k d

/-! ## tracestate.py: the aigp vendor entry of the W3C tracestate header -/

/-- attributes.AIGPAttributes.CLASSIFICATION_ABBREV. -/
def CLASSIFICATION_ABBREV : List (String × String) :=
  [("public", "pub"), ("internal", "int"), ("confidential", "con"), ("restricted", "res")]

/-- tracestate.AIGPTraceState.encode: "cls:..;pol:..;ver:.." with empty
components omitted; the classification abbreviates via the fixed table,
falling back to its first three characters. -/
def tsEncode (data_classification policy_name : String) (policy_version : Int) : String :=
  let parts :=
    (if data_classification ≠ "" then
      ["cls:" ++ lookupD CLASSIFICATION_ABBREV data_classification
          (String.mk (data_classification.data.take 3))]
     else []) ++
    (if policy_name ≠ "" then ["pol:" ++ policy_name] else []) ++
    (if policy_version > 0 then ["ver:" ++ intToString policy_version] else [])
  joinSep ";" parts

/-- tracestate.AIGPTraceState.decode: split on ";" then ":" (once), skipping
parts without a colon, mapping cls back through the reversed abbreviation
table. -/
def tsDecode (vendor_value : String) : List (String × String) :=
  let abbrev_reverse := CLASSIFICATION_ABBREV.map (fun p => (p.2, p.1))
  (pySplit ';' vendor_value).foldl (fun result part =>
    match splitOnceAux ':' part.data with
    | none => result
    | some (k, v) =>
      let key := String.mk k
      let value := String.mk v
      if key = "cls" then dictSet result "data_classification" (lookupD abbrev_reverse value value)
      else if key = "pol" then dictSet result "policy_name" value
      else if key = "ver" then dictSet result "policy_version" value
      else result) []

/-- tracestate.AIGPTraceState.inject_into_tracestate: prepend the freshly
encoded aigp entry, dropping any prior aigp entry from the existing header. -/
def inject_into_tracestate (existing_tracestate data_classification policy_name : String)
    (policy_version : Int) : String :=
  let aigp_value := tsEncode data_classification policy_name policy_version
  if aigp_value = "" then existing_tracestate
  else
    let aigp_entry := "aigp=" ++ aigp_value
    if existing_tracestate ≠ "" then
      let entries := ((pySplit ',' existing_tracestate).map pyStrip).filter
        (fun e => !pyStartsWith "aigp=" e)
      if entries ≠ [] then aigp_entry ++ "," ++ joinSep "," entries
      else aigp_entry
    else aigp_entry

def extractAux : List String → List (String × String)
  | [] => []
  | e :: rest =>
    let entry := pyStrip e
    if pyStartsWith "aigp=" entry then tsDecode (String.mk (entry.data.drop 5))
    else extractAux rest

/-- tracestate.AIGPTraceState.extract_from_tracestate: decode the first
comma-separated entry carrying the aigp vendor key, else the empty dict. -/
def extract_from_tracestate (tracestate : String) : List (String × String) :=
  extractAux (pySplit ',' tracestate)

/-! ## instrumentor.py: per-trace monotonic sequence counter -/

/-- The dispatcher's _sequence_counters dict, trace_id to last-assigned
number, as an association list. -/
def counterGetD : List (String × Nat) → String → Nat
  | [], _ => 0
  | (k0, v0) :: rest, k => if k0 = k then v0 else counterGetD rest k

def counterSet : List (String × Nat) → String → Nat → List (String × Nat)
  | [], k, v => [(k, v)]
  | (k0, v0) :: rest, k, v =>
    if k0 = k then (k, v) :: rest else (k0, v0) :: counterSet rest k v

/-- instrumentor.AIGPInstrumentor._next_sequence: read the counter for the
trace (default 0), increment, store back, return the incremented value. -/
def _next_sequence (counters : List (String × Nat)) (trace_id : String) :
    Nat × List (String × Nat) :=
  let current := counterGetD counters trace_id + 1
  (current, counterSet counters trace_id current)

/-- The sequence-number assignment step of AIGPInstrumentor._dual_emit:
only events carrying a non-empty trace_id receive a sequence number. -/
def dualEmitSeq (counters : List (String × Nat)) (trace_id : String) :
    Option Nat × List (String × Nat) :=
  if trace_id = "" then (none, counters)
  else
    let r := _next_sequence counters trace_id
    (some r.1, r.2)

/-- The sequence numbers assigned by one dispatcher instance to a series of
emitted events, identified by their trace_ids, in order. -/
def assignSeqs (counters : List (String × Nat)) : List String → List (Option Nat)
  | [] => []
  | t :: ts =>
    let r := dualEmitSeq counters t
    r.1 :: assignSeqs r.2 ts

/-- Occurrence count of a string in a list. -/
def countOcc (t : String) : List String → Nat
  | [] => 0
  | x :: xs => (if x = t then 1 else 0) + countOcc t xs

/-! ## events.py: the AIGP event record and its canonical JSON

The event dict of create_aigp_event has a fixed key set; it is modelled as a
structure.  Annotation values are modelled as strings (the dict is free-form
in Python; string values suffice for every claim, which treat annotations as
opaque data).  json.dumps(..., sort_keys=True, separators=(",", ":")) with
its default ensure_ascii=True is implemented character by character below. -/

structure Event where
  event_id : String
  event_type : String
  event_category : String
  event_time : String
  agent_id : String
  governance_hash : String
  trace_id : String
  span_id : String
  parent_span_id : String
  trace_flags : String
  agent_name : String
  org_id : String
  org_name : String
  policy_id : String
  policy_name : String
  policy_version : Int
  prompt_id : String
  prompt_name : String
  prompt_version : Int
  hash_type : String
  data_classification : String
  template_rendered : Bool
  denial_reason : String
  violation_type : String
  severity : String
  source_ip : String
  request_method : String
  request_path : String
  query_hash : String
  previous_hash : String
  annotations : List (String × String)
  event_signature : String
  signature_key_id : String
  sequence_number : Int
  causality_ref : String
  spec_version : String
  governance_merkle_tree : Option MerkleTree
  deriving Repr, DecidableEq

def hex4Chars (n : Nat) : List Char :=
  [hexDigitChar (n / 4096 % 16), hexDigitChar (n / 256 % 16),
   hexDigitChar (n / 16 % 16), hexDigitChar (n % 16)]

/-- One character of json.dumps default (ensure_ascii) string escaping:
the two-character escapes, control characters as backslash-u00xx, printable
ASCII verbatim, every other BMP code point as backslash-uxxxx, and astral
code points as a UTF-16 surrogate pair of two such escapes. -/
def escChar (c : Char) : List Char :=
  if c = '\"' then ['\\', '\"']
  else if c = '\\' then ['\\', '\\']
  else if c = '\n' then ['\\', 'n']
  else if c = '\r' then ['\\', 'r']
  else if c = '\t' then ['\\', 't']
  else if c.toNat = 8 then ['\\', 'b']
  else if c.toNat = 12 then ['\\', 'f']
  else if c.toNat < 0x20 then '\\' :: 'u' :: hex4Chars c.toNat
  else if c.toNat < 0x7f then [c]
  else if c.toNat < 0x10000 then '\\' :: 'u' :: hex4Chars c.toNat
  else ('\\' :: 'u' :: hex4Chars (0xd800 + (c.toNat - 0x10000) / 1024)) ++
       ('\\' :: 'u' :: hex4Chars (0xdc00 + (c.toNat - 0x10000) % 1024))

def escString (s : String) : List Char := s.data.foldr (fun c acc => escChar c ++ acc) []

/-- escString on the underlying character list. -/
def escListChars (l : List Char) : List Char := l.foldr (fun c acc => escChar c ++ acc) []

/-- Value of one lowercase hexadecimal digit character. -/
def hexVal (c : Char) : Option Nat :=
  if 48 ≤ c.toNat ∧ c.toNat ≤ 57 then some (c.toNat - 48)
  else if 97 ≤ c.toNat ∧ c.toNat ≤ 102 then some (c.toNat - 87)
  else none

/-- Decoder for the escChar code: reads one escaped character off the front
of a character list.  Used only to prove that escChar concatenations are
uniquely decodable, hence injective. -/
def escDecode : List Char → Option (Char × List Char)
  | [] => none
  | c :: rest =>
    if c = '\\' then
      match rest with
      | [] => none
      | e :: rest2 =>
        if e = '\"' then some ('\"', rest2)
        else if e = '\\' then some ('\\', rest2)
        else if e = 'n' then some ('\n', rest2)
        else if e = 'r' then some ('\r', rest2)
        else if e = 't' then some ('\t', rest2)
        else if e = 'b' then some (Char.ofNat 8, rest2)
        else if e = 'f' then some (Char.ofNat 12, rest2)
        else if e = 'u' then
          match rest2 with
          | h1 :: h2 :: h3 :: h4 :: rest3 =>
            match hexVal h1, hexVal h2, hexVal h3, hexVal h4 with
            | some v1, some v2, some v3, some v4 =>
              if 0xd800 ≤ v1 * 4096 + v2 * 256 + v3 * 16 + v4 ∧
                 v1 * 4096 + v2 * 256 + v3 * 16 + v4 < 0xdc00 then
                match rest3 with
                | e1 :: e2 :: g1 :: g2 :: g3 :: g4 :: rest4 =>
                  if e1 = '\\' ∧ e2 = 'u' then
                    match hexVal g1, hexVal g2, hexVal g3, hexVal g4 with
                    | some w1, some w2, some w3, some w4 =>
                      if 0xdc00 ≤ w1 * 4096 + w2 * 256 + w3 * 16 + w4 ∧
                         w1 * 4096 + w2 * 256 + w3 * 16 + w4 < 0xe000 then
                        some (Char.ofNat (0x10000 +
                          (v1 * 4096 + v2 * 256 + v3 * 16 + v4 - 0xd800) * 1024 +
                          (w1 * 4096 + w2 * 256 + w3 * 16 + w4 - 0xdc00)), rest4)
                      else none
                    | _, _, _, _ => none
                  else none
                | _ => none
              else
                some (Char.ofNat (v1 * 4096 + v2 * 256 + v3 * 16 + v4), rest3)
            | _, _, _, _ => none
          | _ => none
        else none
    else some (c, rest)

/-- A JSON string literal as json.dumps renders it. -/
def jString (s : String) : String := "\"" ++ String.mk (escString s) ++ "\""

def jBool (b : Bool) : String := if b then "true" else "false"

/-- Annotation relation for json.dumps sort_keys on the annotations dict. -/
def annLE (a b : String × String) : Prop := a.1 ≤ b.1

instance : DecidableRel annLE := fun a b => inferInstanceAs (Decidable (a.1 ≤ b.1))

instance : IsTotal (String × String) annLE := ⟨fun a b => le_total a.1 b.1⟩

instance : IsTrans (String × String) annLE := ⟨fun _ _ _ h₁ h₂ => le_trans h₁ h₂⟩

/-- The annotations dict rendered with sorted keys, no whitespace. -/
def jAnnotations (ann : List (String × String)) : String :=
  "\x7b" ++
    joinSep "," ((List.insertionSort annLE ann).map (fun p => jString p.1 ++ ":" ++ jString p.2)) ++
  "\x7d"

/-- One Merkle leaf as json.dumps renders it with sorted keys; the optional
keys appear exactly when present. -/
def jLeaf (l : MerkleLeaf) : String :=
  "\x7b" ++
    joinSep ","
      ((match l.content_ref with
        | none => []
        | some r => ["\"content_ref\":" ++ jString r]) ++
       ["\"hash\":" ++ jString l.hash] ++
       (match l.hash_mode with
        | none => []
        | some m => ["\"hash_mode\":" ++ jString m]) ++
       ["\"resource_name\":" ++ jString l.resource_name,
        "\"resource_type\":" ++ jString l.resource_type]) ++
  "\x7d"

/-- The governance_merkle_tree object with sorted keys. -/
def jTree (t : MerkleTree) : String :=
  "\x7b\"algorithm\":" ++ jString t.algorithm ++
  ",\"leaf_count\":" ++ natToString t.leaf_count ++
  ",\"leaves\":[" ++ joinSep "," (t.leaves.map jLeaf) ++ "]\x7d"

/-- The canonical JSON up to and including the "annotations" key.  The event
keys in sorted order begin agent_id, agent_name, annotations; the
event_signature and signature_key_id keys are excluded from the whole
serialization per events._canonical_json. -/
def canonicalPre (e : Event) : String :=
  "\x7b\"agent_id\":" ++ jString e.agent_id ++
  ",\"agent_name\":" ++ jString e.agent_name ++
  ",\"annotations\":"

/-- The canonical JSON between the annotations value and the
governance_hash value: the keys causality_ref through governance_hash in
sorted order. -/
def canonicalMid (e : Event) : String :=
  ",\"causality_ref\":" ++ jString e.causality_ref ++
  ",\"data_classification\":" ++ jString e.data_classification ++
  ",\"denial_reason\":" ++ jString e.denial_reason ++
  ",\"event_category\":" ++ jString e.event_category ++
  ",\"event_id\":" ++ jString e.event_id ++
  ",\"event_time\":" ++ jString e.event_time ++
  ",\"event_type\":" ++ jString e.event_type ++
  ",\"governance_hash\":"

/-- The canonical JSON after the governance_hash value: the remaining keys
in sorted order, with governance_merkle_tree present only when the event has
one, and without event_signature and signature_key_id. -/
def canonicalTail (e : Event) : String :=
  (match e.governance_merkle_tree with
   | none => ""
   | some t => ",\"governance_merkle_tree\":" ++ jTree t) ++
  ",\"hash_type\":" ++ jString e.hash_type ++
  ",\"org_id\":" ++ jString e.org_id ++
  ",\"org_name\":" ++ jString e.org_name ++
  ",\"parent_span_id\":" ++ jString e.parent_span_id ++
  ",\"policy_id\":" ++ jString e.policy_id ++
  ",\"policy_name\":" ++ jString e.policy_name ++
  ",\"policy_version\":" ++ intToString e.policy_version ++
  ",\"previous_hash\":" ++ jString e.previous_hash ++
  ",\"prompt_id\":" ++ jString e.prompt_id ++
  ",\"prompt_name\":" ++ jString e.prompt_name ++
  ",\"prompt_version\":" ++ intToString e.prompt_version ++
  ",\"query_hash\":" ++ jString e.query_hash ++
  ",\"request_method\":" ++ jString e.request_method ++
  ",\"request_path\":" ++ jString e.request_path ++
  ",\"sequence_number\":" ++ intToString e.sequence_number ++
  ",\"severity\":" ++ jString e.severity ++
  ",\"source_ip\":" ++ jString e.source_ip ++
  ",\"span_id\":" ++ jString e.span_id ++
  ",\"spec_version\":" ++ jString e.spec_version ++
  ",\"template_rendered\":" ++ jBool e.template_rendered ++
  ",\"trace_flags\":" ++ jString e.trace_flags ++
  ",\"trace_id\":" ++ jString e.trace_id ++
  ",\"violation_type\":" ++ jString e.violation_type ++
  "\x7d"

/-- The canonical JSON text of events._canonical_json: sorted keys, compact
separators, excluding exactly event_signature and signature_key_id. -/
def canonicalJsonStr (e : Event) : String :=
  canonicalPre e ++ jAnnotations e.annotations ++ canonicalMid e ++
    jString e.governance_hash ++ canonicalTail e

/-- events._canonical_json: the canonical JSON, UTF-8 encoded. -/
def _canonical_json (e : Event) : List Nat := utf8Bytes (canonicalJsonStr e)

/-! ## events.py: base64url and JWS ES256 sign/verify -/

def b64Char (n : Nat) : Char :=
  if n < 26 then Char.ofNat (65 + n)
  else if n < 52 then Char.ofNat (71 + n)
  else if n < 62 then Char.ofNat (n - 4)
  else if n = 62 then '-' else '_'

/-- base64url encoding of a byte list, three bytes to four characters, with
the trailing padding already stripped (events._base64url_encode). -/
def b64EncodeChunks : List Nat → List Char
  | [] => []
  | [b1] => [b64Char (b1 / 4), b64Char (b1 % 4 * 16)]
  | [b1, b2] => [b64Char (b1 / 4), b64Char (b1 % 4 * 16 + b2 / 16), b64Char (b2 % 16 * 4)]
  | b1 :: b2 :: b3 :: rest =>
    b64Char (b1 / 4) :: b64Char (b1 % 4 * 16 + b2 / 16) ::
    b64Char (b2 % 16 * 4 + b3 / 64) :: b64Char (b3 % 64) :: b64EncodeChunks rest

def _base64url_encode (bs : List Nat) : String := String.mk (b64EncodeChunks bs)

def b64Val (c : Char) : Option Nat :=
  if 65 ≤ c.toNat ∧ c.toNat ≤ 90 then some (c.toNat - 65)
  else if 97 ≤ c.toNat ∧ c.toNat ≤ 122 then some (c.toNat - 71)
  else if 48 ≤ c.toNat ∧ c.toNat ≤ 57 then some (c.toNat + 4)
  else if c = '-' ∨ c = '+' then some 62
  else if c = '_' ∨ c = '/' then some 63
  else none

/-- CPython binascii.a2b_base64 in its default lenient mode, as reached from
base64.urlsafe_b64decode after the dash and underscore translation (b64Val
accepts both alphabets): the arguments thread the quad position, the pending
bits of the previous character and the running count of consecutive padding
characters; a character outside the alphabet that is not padding is
discarded; a padding character seen at quad position two or three that
completes a four-character group ends the data, discarding the rest of the
input; and input that runs out at a nonzero quad position is a binascii
error (none). -/
def a2bAux : Nat → Nat → Nat → List Char → Option (List Nat)
  | quad, _, _, [] => if quad = 0 then some [] else none
  | quad, left, pads, c :: cs =>
    if c = '=' then
      if 2 ≤ quad ∧ 4 ≤ quad + pads + 1 then some []
      else a2bAux quad left (pads + 1) cs
    else
      match b64Val c with
      | none => a2bAux quad left pads cs
      | some v =>
        if quad = 0 then a2bAux 1 v 0 cs
        else if quad = 1 then (a2bAux 2 (v % 16) 0 cs).map (fun r => (left * 4 + v / 16) :: r)
        else if quad = 2 then (a2bAux 3 (v % 4) 0 cs).map (fun r => (left * 16 + v / 4) :: r)
        else (a2bAux 0 0 0 cs).map (fun r => (left * 64 + v) :: r)

/-- events._base64url_decode: restore padding to a multiple of four (adding
a full quantum of padding when the length is already a multiple of four,
exactly as the source's len-mod-4 arithmetic does), then decode with the
lenient a2b loop; none models both the UnicodeEncodeError of the implicit
ascii encoding of a non-ascii input and the binascii error path. -/
def _base64url_decode (s : String) : Option (List Nat) :=
  if s.data.all (fun c => c.toNat < 128) then
    a2bAux 0 0 0 (s.data ++ List.replicate (4 - s.length % 4) '=')
  else none

/-- Python str.encode("ascii") for strings that are pure ASCII. -/
def asciiBytes (s : String) : List Nat := s.data.map Char.toNat

/-- Python str.encode("ascii"): None models UnicodeEncodeError. -/
def asciiEncode (s : String) : Option (List Nat) :=
  if s.data.all (fun c => c.toNat < 128) then some (asciiBytes s) else none

/-- The JWS protected header of sign_event: alg and typ, plus kid when a
key id was supplied, rendered by json.dumps with sorted keys. -/
def jws_header_json (key_id : String) : String :=
  if key_id ≠ "" then
    "\x7b\"alg\":\"ES256\",\"kid\":" ++ jString key_id ++ ",\"typ\":\"JWT\"\x7d"
  else
    "\x7b\"alg\":\"ES256\",\"typ\":\"JWT\"\x7d"

def jws_header_b64 (key_id : String) : String :=
  _base64url_encode (utf8Bytes (jws_header_json key_id))

def jws_payload_b64 (e : Event) : String := _base64url_encode (_canonical_json e)

/-- The bytes that ES256 signs: header_b64.payload_b64, ASCII encoded (the
two segments are base64url output, hence always ASCII). -/
def jws_signing_input (e : Event) (key_id : String) : List Nat :=
  asciiBytes (jws_header_b64 key_id ++ "." ++ jws_payload_b64 e)

/-- events.sign_event.  The external `cryptography` package's ECDSA P-256
signing (including its randomized nonce and the DER-to-raw conversion down
to the integer pair r, s) is abstracted as the function parameter ecdsaSign;
everything around it — canonical JSON, the JWS header, base64url, the
fixed-width 32+32-byte encoding of r and s, and the returned copy of the
event — follows the source. -/
def sign_event {Kpriv : Type} (ecdsaSign : Kpriv → List Nat → Nat × Nat)
    (event : Event) (private_key : Kpriv) (key_id : String) : Event :=
  let header_b64 := jws_header_b64 key_id
  let payload_b64 := jws_payload_b64 event
  let rs := ecdsaSign private_key (jws_signing_input event key_id)
  let signature_b64 := _base64url_encode (natToBytesBE 32 rs.1 ++ natToBytesBE 32 rs.2)
  { event with
    event_signature := header_b64 ++ "." ++ payload_b64 ++ "." ++ signature_b64
    signature_key_id := key_id }

/-- events.verify_event_signature.  The external ECDSA P-256 verification is
abstracted as ecdsaVerify; the Boolean-only outcome (the source catches every
exception and returns False) is modelled by totality: every early-exit path
of the source returns false here. -/
def verify_event_signature {Kpub : Type} (ecdsaVerify : Kpub → List Nat → Nat × Nat → Bool)
    (event : Event) (public_key : Kpub) : Bool :=
  let jws_compact := event.event_signature
  if jws_compact = "" then false
  else
    match pySplit '.' jws_compact with
    | [header_b64, _payload_b64, signature_b64] =>
      let expected_payload_b64 := _base64url_encode (_canonical_json event)
      match asciiEncode (header_b64 ++ "." ++ expected_payload_b64) with
      | none => false
      | some signing_input =>
        match _base64url_decode signature_b64 with
        | none => false
        | some sig_bytes =>
          if sig_bytes.length ≠ 64 then false
          else
            ecdsaVerify public_key signing_input
              (bytesToNatBE (sig_bytes.take 32), bytesToNatBE (sig_bytes.drop 32))
    | _ => false

/-! ## Derived definitions used by the statements and proofs -/

/-- The leaf record a successful compute_leaf_hash produces for a
normalized entry. -/
def leafOf (entry : Resource) : MerkleLeaf :=
  mkLeaf entry (sha256Hex (entry.resource_type ++ ":" ++ entry.resource_name ++ ":" ++
    (if entry.hash_mode = "pointer" then entry.content_ref else entry.content)))

/-- Decidable success condition of compute_leaf_hash. -/
def leafOk (entry : Resource) : Bool :=
  rtypeMatches entry.resource_type &&
    decide (¬ (entry.hash_mode = "pointer" ∧ entry.content_ref = ""))

/-- The leaves of a multi-resource build, before sorting. -/
def normLeaves (rs : List RawResource) : List MerkleLeaf :=
  (rs.map _normalize_resource).map leafOf

/-- The sorted leaf-hash list a multi-resource build feeds to the Merkle
root computation. -/
def sortedHashes (rs : List RawResource) : List String :=
  (sortLeaves (normLeaves rs)).map MerkleLeaf.hash

/-- The three ascending example leaves the specification pins for the
promotion-versus-duplication regression case. -/
def onesLeaf : String := String.mk (List.replicate 64 '1')

def twosLeaf : String := String.mk (List.replicate 64 '2')

def threesLeaf : String := String.mk (List.replicate 64 '3')

/-- An event with every default value, used as concrete test data. -/
def emptyEvent : Event :=
  { event_id := "", event_type := "", event_category := "", event_time := "",
    agent_id := "", governance_hash := "", trace_id := "", span_id := "",
    parent_span_id := "", trace_flags := "", agent_name := "", org_id := "",
    org_name := "", policy_id := "", policy_name := "", policy_version := 0,
    prompt_id := "", prompt_name := "", prompt_version := 0, hash_type := "sha256",
    data_classification := "", template_rendered := false, denial_reason := "",
    violation_type := "", severity := "", source_ip := "", request_method := "",
    request_path := "", query_hash := "", previous_hash := "", annotations := [],
    event_signature := "", signature_key_id := "", sequence_number := 0,
    causality_ref := "", spec_version := "0.8.0", governance_merkle_tree := none }

/-- Concrete event that differs from emptyEvent only in annotations. -/
def annotatedEvent : Event := { emptyEvent with annotations := [("note", "informational")] }

/-- Concrete event used to exercise sign/verify end to end. -/
def c2Event : Event :=
  { emptyEvent with
    event_type := "INJECT_SUCCESS"
    agent_id := "agent.w"
    governance_hash := "feedbeef"
    trace_id := "t-1" }

/-- A deterministic stand-in for the abstract ECDSA signing primitive,
used only to instantiate hypotheses at concrete inputs. -/
def c2SignToy : Nat → List Nat → Nat × Nat := fun _ _ => (1, 2)

/-- A stand-in verification primitive that accepts exactly the matching key,
the signing input of c2Event under key id key.main, and the signature the
stand-in signer produces. -/
def c2VerifyToy : Nat → List Nat → Nat × Nat → Bool :=
  fun pk m rs =>
    decide (pk = 1) && decide (m = jws_signing_input c2Event "key.main") && decide (rs = (1, 2))

/-- A verification primitive that always rejects. -/
def c7VerifyFalse : Nat → List Nat → Nat × Nat → Bool := fun _ _ _ => false

/-! ## String and list basics -/

theorem strMk_data (s : String) : String.mk s.data = s := by
  cases s
  rfl

theorem strExt {a b : String} (h : a.data = b.data) : a = b := by
  cases a
  cases b
  exact congrArg String.mk h

theorem strData_append (a b : String) : (a ++ b).data = a.data ++ b.data := by
  cases a
  cases b
  rfl

theorem strAppend_left_cancel {a b c : String} (h : a ++ b = a ++ c) : b = c := by
  have hd := congrArg String.data h
  rw [strData_append, strData_append] at hd
  exact strExt (List.append_cancel_left hd)

theorem strAppend_right_cancel {a b c : String} (h : a ++ c = b ++ c) : a = b := by
  have hd := congrArg String.data h
  rw [strData_append, strData_append] at hd
  exact strExt (List.append_cancel_right hd)

theorem charToNat_inj {a b : Char} (h : a.toNat = b.toNat) : a = b := by
  have := congrArg Char.ofNat h
  rwa [Char.ofNat_toNat, Char.ofNat_toNat] at this

theorem charToNat_lt (c : Char) : c.toNat < 1114112 := by
  have h := c.valid
  simp only [Char.toNat]
  rcases h with h | h
  · omega
  · omega

theorem charToNat_not_surrogate (c : Char) : c.toNat < 0xd800 ∨ 0xdfff < c.toNat := by
  have h := c.valid
  simp only [Char.toNat]
  rcases h with h | h
  · left
    omega
  · right
    omega

/-! ## Sequence-counter lemmas (instrumentor.py) -/

theorem counterGetD_set (m : List (String × Nat)) (k : String) (v : Nat) (x : String) :
    counterGetD (counterSet m k v) x = if x = k then v else counterGetD m x := by
  induction m with
  | nil =>
    rcases eq_or_ne k x with h | h
    · subst h
      simp [counterSet, counterGetD]
    · simp [counterSet, counterGetD, h, Ne.symm h]
  | cons p rest ih =>
    obtain ⟨k0, v0⟩ := p
    by_cases hk : k0 = k
    · subst hk
      rcases eq_or_ne k0 x with h | h
      · subst h
        simp [counterSet, counterGetD]
      · simp [counterSet, counterGetD, h, Ne.symm h]
    · rcases eq_or_ne k0 x with h | h
      · subst h
        simp [counterSet, counterGetD, hk, Ne.symm hk]
      · simp [counterSet, counterGetD, hk, h, ih]

theorem assignSeqs_getD (ts : List String) : ∀ (m : List (String × Nat)) (i : Nat),
    i < ts.length → (∀ t ∈ ts, t ≠ "") →
    (assignSeqs m ts).getD i none =
      some (counterGetD m (ts.getD i "") + countOcc (ts.getD i "") (ts.take (i + 1))) := by
  induction ts with
  | nil =>
    intro m i hi _
    simp at hi
  | cons t ts ih =>
    intro m i hi hne
    have ht : t ≠ "" := hne t (List.mem_cons_self t ts)
    cases i with
    | zero =>
      simp [assignSeqs, dualEmitSeq, _next_sequence, ht, countOcc]
    | succ j =>
      have hj : j < ts.length := by simpa using hi
      have hne2 : ∀ x ∈ ts, x ≠ "" := fun x hx => hne x (List.mem_cons_of_mem t hx)
      have step : assignSeqs m (t :: ts) =
          some (counterGetD m t + 1) :: assignSeqs (counterSet m t (counterGetD m t + 1)) ts := by
        simp [assignSeqs, dualEmitSeq, _next_sequence, ht]
      rw [step]
      have ihj := ih (counterSet m t (counterGetD m t + 1)) j hj hne2
      simp only [List.getD_cons_succ]
      rw [ihj, counterGetD_set]
      have htake : (t :: ts).take (j + 1 + 1) = t :: ts.take (j + 1) := by simp
      rw [htake]
      simp only [countOcc, Option.some.injEq]
      by_cases hx : ts.getD j "" = t
      · rw [hx]
        simp
        omega
      · rw [if_neg hx, if_neg (fun h => hx h.symm)]
        omega

/-- C9: for one dispatcher instance, the sequence numbers assigned to
successive emitted events are, for each event, exactly the number of events
seen so far (that one included) under its trace_id: the k-th event of a
given trace_id receives sequence number k, so numbers under one trace_id
are 1, 2, 3, ... and a fresh trace_id restarts at 1 independently of all
other trace_ids. -/
theorem C9_sequence_numbers (ts : List String) (hne : ∀ t ∈ ts, t ≠ "")
    (i : Nat) (hi : i < ts.length) :
    (assignSeqs [] ts).getD i none = some (countOcc (ts.getD i "") (ts.take (i + 1))) := by
  have h := assignSeqs_getD ts [] i hi hne
  simpa [counterGetD] using h

/-- Witness for C9 at a concrete interleaving of two trace ids: the third
event of trace a receives sequence number 3 while the interleaved trace b
restarted at 1 and reached only 2. -/
theorem C9_sequence_numbers_witness :
    (assignSeqs [] ["a", "b", "a", "b", "a"]).getD 4 none = some 3 ∧
    (assignSeqs [] ["a", "b", "a", "b", "a"]).getD 3 none = some 2 :=
  ⟨C9_sequence_numbers ["a", "b", "a", "b", "a"] (by decide) 4 (by decide),
   C9_sequence_numbers ["a", "b", "a", "b", "a"] (by decide) 3 (by decide)⟩

/-! ## Validation errors (C8) -/

/-- C8: every validation misuse is an error returned to the caller, never a
silent default: an invalid resource_type and a pointer-mode leaf without a
content_ref fail compute_leaf_hash, an unrecognized algorithm tag fails
compute_governance_hash, and an empty resource list fails
compute_merkle_governance_hash. -/
theorem C8_validation_errors :
    (∀ t n c mode ref, rtypeMatches t = false →
      compute_leaf_hash t n c mode ref = .error ("Invalid resource_type: " ++ t)) ∧
    (∀ t n c, rtypeMatches t = true →
      compute_leaf_hash t n c "pointer" "" =
        .error "content_ref is required when hash_mode is pointer") ∧
    (∀ content alg, alg ≠ "sha256" → alg ≠ "sha384" → alg ≠ "sha512" →
      compute_governance_hash content alg = .error ("Unsupported hash algorithm: " ++ alg)) ∧
    compute_merkle_governance_hash [] = .error "At least one resource is required" := by
  refine ⟨?_, ?_, ?_, ?_⟩
  · intro t n c mode ref h
    simp [compute_leaf_hash, h]
  · intro t n c h
    simp [compute_leaf_hash, h]
  · intro content alg h1 h2 h3
    simp [compute_governance_hash, h1, h2, h3]
  · rfl

/-- Witness for C8 at concrete misuses: an uppercase resource type, a
pointer-mode leaf without content_ref, and the md5 algorithm tag. -/
theorem C8_validation_errors_witness :
    compute_leaf_hash "Policy" "x" "c" "content" "" =
      .error ("Invalid resource_type: " ++ "Policy") ∧
    compute_leaf_hash "policy" "x" "c" "pointer" "" =
      .error "content_ref is required when hash_mode is pointer" ∧
    compute_governance_hash "abc" "md5" = .error ("Unsupported hash algorithm: " ++ "md5") :=
  ⟨C8_validation_errors.1 "Policy" "x" "c" "content" "" (by decide),
   C8_validation_errors.2.1 "policy" "x" "c" (by decide),
   C8_validation_errors.2.2.1 "abc" "md5" (by decide) (by decide) (by decide)⟩

/-! ## Single-resource degenerate build (C6) -/

/-- C6: building from exactly one resource returns the flat digest of that
resource's hashable content — the content under hash_mode content, the
content_ref under hash_mode pointer — with no tree and no type:name
domain-separation applied to the digest input. -/
theorem C6_single_resource_flat (r : RawResource) :
    compute_merkle_governance_hash [r] =
      .ok (sha256Hex (if (_normalize_resource r).hash_mode = "pointer"
            then (_normalize_resource r).content_ref
            else (_normalize_resource r).content), none) := by
  by_cases h : (_normalize_resource r).hash_mode = "pointer"
  · simp [compute_merkle_governance_hash, compute_governance_hash, h]
  · simp [compute_merkle_governance_hash, compute_governance_hash, h]

/-! ## Merkle-engine lemmas -/

theorem combineLevel_length : ∀ l : List String, (combineLevel l).length = (l.length + 1) / 2
  | [] => by simp [combineLevel]
  | [_] => by simp [combineLevel]
  | a :: b :: rest => by
    have ih := combineLevel_length rest
    simp only [combineLevel, List.length_cons]
    omega

theorem merkleLoop_spec (f : Nat) : ∀ l : List String, 1 ≤ l.length → l.length ≤ f + 1 →
    merkleLoop f l = [specMerkleRootAux f l] := by
  induction f with
  | zero =>
    intro l h1 h2
    rcases l with _ | ⟨x, _ | ⟨y, t⟩⟩
    · simp at h1
    · simp [merkleLoop, specMerkleRootAux]
    · simp at h2
  | succ f ih =>
    intro l h1 h2
    rcases l with _ | ⟨x, _ | ⟨y, t⟩⟩
    · simp at h1
    · simp [merkleLoop, specMerkleRootAux]
    · have hlen : ¬ (x :: y :: t).length ≤ 1 := by simp
      have hc := combineLevel_length (x :: y :: t)
      have h1c : 1 ≤ (combineLevel (x :: y :: t)).length := by
        rw [hc]
        simp only [List.length_cons]
        omega
      have h2c : (combineLevel (x :: y :: t)).length ≤ f + 1 := by
        rw [hc]
        simp only [List.length_cons] at h2 ⊢
        omega
      rw [show merkleLoop (f + 1) (x :: y :: t) = merkleLoop f (combineLevel (x :: y :: t)) by
            simp [merkleLoop, hlen],
          ih (combineLevel (x :: y :: t)) h1c h2c]
      have : specMerkleRootAux (f + 1) (x :: y :: t) =
          specMerkleRootAux f (combineLevel (x :: y :: t)) := by
        simp [specMerkleRootAux]
      rw [this]

theorem merkleRoot_eq_spec (hs : List String) (h2 : 2 ≤ hs.length) :
    _compute_merkle_root hs = .ok (specMerkleRoot hs) := by
  rcases hs with _ | ⟨a, _ | ⟨b, t⟩⟩
  · simp at h2
  · simp at h2
  · have h1 : 1 ≤ (a :: b :: t).length := by simp
    have hle : (a :: b :: t).length ≤ (a :: b :: t).length + 1 := Nat.le_succ _
    simp only [_compute_merkle_root]
    rw [merkleLoop_spec (a :: b :: t).length (a :: b :: t) h1 hle]
    rfl

theorem specMerkleRoot_three (L1 L2 L3 : String) :
    specMerkleRoot [L1, L2, L3] = sha256Hex (sha256Hex (L1 ++ L2) ++ L3) := rfl

/-- C1: on two or more ascending leaf hashes the Merkle root is the
left-to-right pairwise fold with the odd last element promoted unchanged
(the spec-side recursion specMerkleRoot); in particular three leaves fold to
digest(digest(L1 || L2) || L3), and at the specification's pinned example
leaves this differs from the duplication-based digest(digest(L1 || L2) ||
digest(L3 || L3)). -/
theorem C1_merkle_promotion (L1 L2 L3 : String) (h12 : L1 < L2) (h23 : L2 < L3) :
    (∀ hs : List String, 2 ≤ hs.length → hs.Sorted (· ≤ ·) →
      _compute_merkle_root hs = .ok (specMerkleRoot hs)) ∧
    _compute_merkle_root [L1, L2, L3] = .ok (sha256Hex (sha256Hex (L1 ++ L2) ++ L3)) ∧
    sha256Hex (sha256Hex (onesLeaf ++ twosLeaf) ++ threesLeaf) ≠
      sha256Hex (sha256Hex (onesLeaf ++ twosLeaf) ++ sha256Hex (threesLeaf ++ threesLeaf)) := by
  refine ⟨fun hs hlen _ => merkleRoot_eq_spec hs hlen, ?_, ?_⟩
  · rw [merkleRoot_eq_spec [L1, L2, L3] (by simp), specMerkleRoot_three]
  · decide

/-- Witness for C1 at the specification's example leaves 64 ones, twos and
threes (ascending): the root is the promoted fold. -/
theorem C1_merkle_promotion_witness :
    _compute_merkle_root [onesLeaf, twosLeaf, threesLeaf] =
      .ok (sha256Hex (sha256Hex (onesLeaf ++ twosLeaf) ++ threesLeaf)) :=
  (C1_merkle_promotion onesLeaf twosLeaf threesLeaf
    (by rw [String.lt_iff_toList_lt]; decide)
    (by rw [String.lt_iff_toList_lt]; decide)).2.1

/-! ## Order independence of the multi-resource build (C3) -/

theorem compute_leaf_hash_ok (entry : Resource) (h : leafOk entry = true) :
    compute_leaf_hash entry.resource_type entry.resource_name entry.content
      entry.hash_mode entry.content_ref =
      .ok (sha256Hex (entry.resource_type ++ ":" ++ entry.resource_name ++ ":" ++
        (if entry.hash_mode = "pointer" then entry.content_ref else entry.content))) := by
  simp only [leafOk, Bool.and_eq_true, decide_eq_true_eq] at h
  obtain ⟨h1, h2⟩ := h
  simp [compute_leaf_hash, h1, h2]

theorem buildLeaves_ok (rs : List Resource) (h : ∀ r ∈ rs, leafOk r = true) :
    buildLeaves rs = .ok (rs.map leafOf) := by
  induction rs with
  | nil => rfl
  | cons e rest ih =>
    have he := compute_leaf_hash_ok e (h e (List.mem_cons_self e rest))
    have hrest := ih (fun r hr => h r (List.mem_cons_of_mem e hr))
    simp [buildLeaves, he, hrest, leafOf]

theorem build_multi (rs : List RawResource) (h2 : 2 ≤ rs.length)
    (hok : ∀ r ∈ rs, leafOk (_normalize_resource r) = true) :
    compute_merkle_governance_hash rs =
      .ok (specMerkleRoot (sortedHashes rs),
           some { algorithm := "sha256", leaf_count := (normLeaves rs).length,
                  leaves := sortLeaves (normLeaves rs) }) := by
  rcases rs with _ | ⟨a, _ | ⟨b, t⟩⟩
  · simp at h2
  · simp at h2
  · have hnorm : ∀ r ∈ (a :: b :: t).map _normalize_resource, leafOk r = true := by
      intro r hr
      obtain ⟨x, hx, rfl⟩ := List.mem_map.mp hr
      exact hok x hx
    have hb := buildLeaves_ok ((a :: b :: t).map _normalize_resource) hnorm
    have hlen2 : 2 ≤ ((sortLeaves (normLeaves (a :: b :: t))).map MerkleLeaf.hash).length := by
      rw [List.length_map, sortLeaves, List.length_insertionSort, normLeaves,
        List.length_map, List.length_map]
      simp
    have hroot := merkleRoot_eq_spec ((sortLeaves (normLeaves (a :: b :: t))).map MerkleLeaf.hash)
      hlen2
    simp only [compute_merkle_governance_hash, List.map_cons] at hb ⊢
    rw [hb]
    simp only [sortedHashes, normLeaves, List.map_cons] at hroot ⊢
    rw [hroot]

theorem sortedHashes_perm_eq (l₂ l₁ : List RawResource) (hperm : l₂.Perm l₁) :
    sortedHashes l₂ = sortedHashes l₁ := by
  have hL : (normLeaves l₂).Perm (normLeaves l₁) := (hperm.map _normalize_resource).map leafOf
  have hs₂ : (sortLeaves (normLeaves l₂)).Perm (sortLeaves (normLeaves l₁)) :=
    ((List.perm_insertionSort leafLE _).trans hL).trans
      (List.perm_insertionSort leafLE _).symm
  have hmap : (sortedHashes l₂).Perm (sortedHashes l₁) := hs₂.map _
  have hsorted : ∀ l : List RawResource, (sortedHashes l).Sorted (· ≤ ·) := by
    intro l
    exact List.Pairwise.map MerkleLeaf.hash (fun _ _ h => h)
      (List.sorted_insertionSort leafLE (normLeaves l))
  exact List.eq_of_perm_of_sorted hmap (hsorted l₂) (hsorted l₁)

/-- C3: for two or more governable resources whose leaves all validate,
permuting the input list leaves the Merkle root unchanged, because leaves
are sorted ascending by hash before pairwise combination. -/
theorem C3_order_independence (l₁ l₂ : List RawResource) (hperm : l₂.Perm l₁)
    (hlen : 2 ≤ l₁.length) (hok : ∀ r ∈ l₁, leafOk (_normalize_resource r) = true) :
    ∃ root t₁ t₂, compute_merkle_governance_hash l₁ = .ok (root, t₁) ∧
      compute_merkle_governance_hash l₂ = .ok (root, t₂) := by
  have hlen₂ : 2 ≤ l₂.length := by rw [hperm.length_eq]; exact hlen
  have hok₂ : ∀ r ∈ l₂, leafOk (_normalize_resource r) = true :=
    fun r hr => hok r (hperm.subset hr)
  refine ⟨specMerkleRoot (sortedHashes l₁),
    some { algorithm := "sha256", leaf_count := (normLeaves l₁).length,
           leaves := sortLeaves (normLeaves l₁) },
    some { algorithm := "sha256", leaf_count := (normLeaves l₂).length,
           leaves := sortLeaves (normLeaves l₂) },
    build_multi l₁ hlen hok, ?_⟩
  rw [build_multi l₂ hlen₂ hok₂, sortedHashes_perm_eq l₂ l₁ hperm]

/-- Witness for C3 at a concrete two-resource list and its reversal. -/
theorem C3_order_independence_witness :
    ∃ root t₁ t₂,
      compute_merkle_governance_hash
        [RawResource.tup "policy" "policy.a" "A", RawResource.tup "prompt" "prompt.b" "B"] =
        .ok (root, t₁) ∧
      compute_merkle_governance_hash
        [RawResource.tup "prompt" "prompt.b" "B", RawResource.tup "policy" "policy.a" "A"] =
        .ok (root, t₂) :=
  C3_order_independence
    [RawResource.tup "policy" "policy.a" "A", RawResource.tup "prompt" "prompt.b" "B"]
    [RawResource.tup "prompt" "prompt.b" "B", RawResource.tup "policy" "policy.a" "A"]
    (by decide) (by decide) (by decide)

/-! ## Leaf-hash domain separation (C5) -/

/-- C5: under pointwise collision-freedom of the digest at the two
domain-separated inputs, distinct valid resource types with equal name and
content, and equal valid type with distinct names, produce distinct leaf
hashes; the two compute_leaf_hash calls succeed with exactly those digests. -/
theorem C5_domain_separation (t1 t2 n n1 n2 C : String)
    (hv1 : rtypeMatches t1 = true) (hv2 : rtypeMatches t2 = true)
    (ht : t1 ≠ t2) (hn : n1 ≠ n2)
    (hcoll1 : sha256Hex (t1 ++ ":" ++ n ++ ":" ++ C) = sha256Hex (t2 ++ ":" ++ n ++ ":" ++ C) →
      t1 ++ ":" ++ n ++ ":" ++ C = t2 ++ ":" ++ n ++ ":" ++ C)
    (hcoll2 : sha256Hex (t1 ++ ":" ++ n1 ++ ":" ++ C) = sha256Hex (t1 ++ ":" ++ n2 ++ ":" ++ C) →
      t1 ++ ":" ++ n1 ++ ":" ++ C = t1 ++ ":" ++ n2 ++ ":" ++ C) :
    compute_leaf_hash t1 n C "content" "" = .ok (sha256Hex (t1 ++ ":" ++ n ++ ":" ++ C)) ∧
    compute_leaf_hash t2 n C "content" "" = .ok (sha256Hex (t2 ++ ":" ++ n ++ ":" ++ C)) ∧
    sha256Hex (t1 ++ ":" ++ n ++ ":" ++ C) ≠ sha256Hex (t2 ++ ":" ++ n ++ ":" ++ C) ∧
    sha256Hex (t1 ++ ":" ++ n1 ++ ":" ++ C) ≠ sha256Hex (t1 ++ ":" ++ n2 ++ ":" ++ C) := by
  refine ⟨by simp [compute_leaf_hash, hv1], by simp [compute_leaf_hash, hv2], ?_, ?_⟩
  · intro h
    have heq := hcoll1 h
    exact ht (strAppend_right_cancel (strAppend_right_cancel
      (strAppend_right_cancel (strAppend_right_cancel heq))))
  · intro h
    have heq := hcoll2 h
    have h1 := strAppend_right_cancel (strAppend_right_cancel heq)
    exact hn (strAppend_left_cancel h1)

/-- Witness for C5 at concrete types policy and prompt, names and content. -/
theorem C5_domain_separation_witness :
    sha256Hex ("policy" ++ ":" ++ "x.y" ++ ":" ++ "same") ≠
      sha256Hex ("prompt" ++ ":" ++ "x.y" ++ ":" ++ "same") ∧
    sha256Hex ("policy" ++ ":" ++ "a" ++ ":" ++ "same") ≠
      sha256Hex ("policy" ++ ":" ++ "b" ++ ":" ++ "same") :=
  ⟨(C5_domain_separation "policy" "prompt" "x.y" "a" "b" "same"
      (by decide) (by decide) (by decide) (by decide) (by decide) (by decide)).2.2.1,
   (C5_domain_separation "policy" "prompt" "x.y" "a" "b" "same"
      (by decide) (by decide) (by decide) (by decide) (by decide) (by decide)).2.2.2⟩

/-! ## tracestate round trip (C10) -/

/-- C10: injecting the aigp vendor entry into the tracestate header dd=s:1
with classification confidential, policy policy.x and version 4 yields
exactly aigp=cls:con;pol:policy.x;ver:4,dd=s:1, and extracting from that
result recovers the full classification, policy name and version map. -/
theorem C10_tracestate_roundtrip :
    inject_into_tracestate "dd=s:1" "confidential" "policy.x" 4 =
      "aigp=cls:con;pol:policy.x;ver:4,dd=s:1" ∧
    extract_from_tracestate (inject_into_tracestate "dd=s:1" "confidential" "policy.x" 4) =
      [("data_classification", "confidential"), ("policy_name", "policy.x"),
       ("policy_version", "4")] := by
  constructor
  · decide
  · decide

/-! ## Splitting lemmas for the JWS compact token -/

theorem splitCharAux_ne_nil (sep : Char) (l : List Char) : splitCharAux sep l ≠ [] := by
  cases l with
  | nil => simp [splitCharAux]
  | cons c cs =>
    rcases hs : splitCharAux sep cs with _ | ⟨h, t⟩
    · simp [splitCharAux, hs]
    · simp only [splitCharAux, hs]
      split
      · simp
      · simp

theorem splitCharAux_sep_cons (sep : Char) (rest : List Char) :
    splitCharAux sep (sep :: rest) = [] :: splitCharAux sep rest := by
  rcases hs : splitCharAux sep rest with _ | ⟨h, t⟩
  · exact absurd hs (splitCharAux_ne_nil sep rest)
  · simp [splitCharAux, hs]

theorem splitCharAux_append (sep : Char) (a rest : List Char) (ha : ∀ c ∈ a, c ≠ sep) :
    splitCharAux sep (a ++ sep :: rest) = a :: splitCharAux sep rest := by
  induction a with
  | nil => simpa using splitCharAux_sep_cons sep rest
  | cons c cs ih =>
    have hc : c ≠ sep := ha c (List.mem_cons_self c cs)
    have ih2 := ih (fun x hx => ha x (List.mem_cons_of_mem c hx))
    simp only [List.cons_append, splitCharAux, List.append_eq]
    rw [ih2]
    simp [hc]

theorem splitCharAux_nosep (sep : Char) (a : List Char) (ha : ∀ c ∈ a, c ≠ sep) :
    splitCharAux sep a = [a] := by
  induction a with
  | nil => rfl
  | cons c cs ih =>
    have hc : c ≠ sep := ha c (List.mem_cons_self c cs)
    have ih2 := ih (fun x hx => ha x (List.mem_cons_of_mem c hx))
    simp [splitCharAux, ih2, hc]

theorem pySplit_three (h p s : String)
    (hh : ∀ c ∈ h.data, c ≠ '.') (hp : ∀ c ∈ p.data, c ≠ '.') (hs : ∀ c ∈ s.data, c ≠ '.') :
    pySplit '.' (h ++ "." ++ p ++ "." ++ s) = [h, p, s] := by
  have hdata : (h ++ "." ++ p ++ "." ++ s).data
      = h.data ++ '.' :: (p.data ++ '.' :: s.data) := by
    simp [strData_append, List.append_assoc]
  unfold pySplit
  rw [hdata, splitCharAux_append _ _ _ hh, splitCharAux_append _ _ _ hp,
    splitCharAux_nosep _ _ hs]
  simp [strMk_data]

theorem strNe_empty_of_mem_dot {s : String} (hc : '.' ∈ s.data) : s ≠ "" := by
  intro h
  subst h
  simp at hc

/-! ## Byte-list lemmas -/

theorem natToBytesBE_length : ∀ (k v : Nat), (natToBytesBE k v).length = k
  | 0, _ => rfl
  | k + 1, v => by simp [natToBytesBE, natToBytesBE_length k (v / 256)]

theorem natToBytesBE_lt : ∀ (k v : Nat), ∀ b ∈ natToBytesBE k v, b < 256
  | 0, _ => by simp [natToBytesBE]
  | k + 1, v => by
    intro b hb
    simp only [natToBytesBE, List.mem_append, List.mem_singleton] at hb
    rcases hb with hb | rfl
    · exact natToBytesBE_lt k (v / 256) b hb
    · omega

theorem bytesToNatBE_concat (l : List Nat) (x : Nat) :
    bytesToNatBE (l ++ [x]) = bytesToNatBE l * 256 + x := by
  simp [bytesToNatBE, List.foldl_append]

theorem bytesToNatBE_natToBytesBE : ∀ (k v : Nat), v < 256 ^ k →
    bytesToNatBE (natToBytesBE k v) = v
  | 0, v, hv => by
    simp [natToBytesBE, bytesToNatBE]
    omega
  | k + 1, v, hv => by
    have hdiv : v / 256 < 256 ^ k := by
      apply Nat.div_lt_of_lt_mul
      rw [pow_succ] at hv
      omega
    rw [natToBytesBE, bytesToNatBE_concat, bytesToNatBE_natToBytesBE k (v / 256) hdiv]
    omega

/-! ## base64url lemmas -/

theorem b64Char_spec : ∀ v : Nat, v < 64 →
    b64Val (b64Char v) = some v ∧ b64Char v ≠ '=' ∧ b64Char v ≠ '.' ∧
      (b64Char v).toNat < 128 := by decide

theorem b64EncodeChunks_mem : ∀ (bs : List Nat), (∀ b ∈ bs, b < 256) →
    ∀ c ∈ b64EncodeChunks bs, ∃ v, v < 64 ∧ c = b64Char v
  | [], _ => by simp [b64EncodeChunks]
  | [b1], h => by
    have hb1 : b1 < 256 := h b1 (by simp)
    intro c hc
    simp only [b64EncodeChunks, List.mem_cons, List.not_mem_nil, or_false] at hc
    rcases hc with rfl | rfl
    · exact ⟨b1 / 4, by omega, rfl⟩
    · exact ⟨b1 % 4 * 16, by omega, rfl⟩
  | [b1, b2], h => by
    have hb1 : b1 < 256 := h b1 (by simp)
    have hb2 : b2 < 256 := h b2 (by simp)
    intro c hc
    simp only [b64EncodeChunks, List.mem_cons, List.not_mem_nil, or_false] at hc
    rcases hc with rfl | rfl | rfl
    · exact ⟨b1 / 4, by omega, rfl⟩
    · exact ⟨b1 % 4 * 16 + b2 / 16, by omega, rfl⟩
    · exact ⟨b2 % 16 * 4, by omega, rfl⟩
  | b1 :: b2 :: b3 :: rest, h => by
    have hb1 : b1 < 256 := h b1 (by simp)
    have hb2 : b2 < 256 := h b2 (by simp)
    have hb3 : b3 < 256 := h b3 (by simp)
    have hrest : ∀ b ∈ rest, b < 256 := fun b hb => h b (by simp [hb])
    intro c hc
    simp only [b64EncodeChunks, List.mem_cons] at hc
    rcases hc with rfl | rfl | rfl | rfl | hc
    · exact ⟨b1 / 4, by omega, rfl⟩
    · exact ⟨b1 % 4 * 16 + b2 / 16, by omega, rfl⟩
    · exact ⟨b2 % 16 * 4 + b3 / 64, by omega, rfl⟩
    · exact ⟨b3 % 64, by omega, rfl⟩
    · exact b64EncodeChunks_mem rest hrest c hc

theorem b64EncodeChunks_not_dot (bs : List Nat) (h : ∀ b ∈ bs, b < 256) :
    ∀ c ∈ b64EncodeChunks bs, c ≠ '.' := by
  intro c hc
  obtain ⟨v, hv, rfl⟩ := b64EncodeChunks_mem bs h c hc
  exact (b64Char_spec v hv).2.2.1

theorem b64EncodeChunks_ascii (bs : List Nat) (h : ∀ b ∈ bs, b < 256) :
    ∀ c ∈ b64EncodeChunks bs, c.toNat < 128 := by
  intro c hc
  obtain ⟨v, hv, rfl⟩ := b64EncodeChunks_mem bs h c hc
  exact (b64Char_spec v hv).2.2.2

theorem a2b_pad_stop (quad left pads : Nat) (cs : List Char)
    (h : 2 ≤ quad ∧ 4 ≤ quad + pads + 1) :
    a2bAux quad left pads ('=' :: cs) = some [] := by
  simp only [a2bAux, if_true]
  rw [if_pos h]

theorem a2b_pad_cont (quad left pads : Nat) (cs : List Char)
    (h : ¬ (2 ≤ quad ∧ 4 ≤ quad + pads + 1)) :
    a2bAux quad left pads ('=' :: cs) = a2bAux quad left (pads + 1) cs := by
  simp only [a2bAux, if_true]
  rw [if_neg h]

theorem a2b_val0 (left pads v : Nat) (c : Char) (cs : List Char)
    (hc : c ≠ '=') (hv : b64Val c = some v) :
    a2bAux 0 left pads (c :: cs) = a2bAux 1 v 0 cs := by
  simp only [a2bAux]
  rw [if_neg hc]
  simp only [hv]
  rw [if_true]

theorem a2b_val1 (left pads v : Nat) (c : Char) (cs : List Char)
    (hc : c ≠ '=') (hv : b64Val c = some v) :
    a2bAux 1 left pads (c :: cs) =
      (a2bAux 2 (v % 16) 0 cs).map (fun r => (left * 4 + v / 16) :: r) := by
  simp only [a2bAux]
  rw [if_neg hc]
  simp only [hv]
  norm_num

theorem a2b_val2 (left pads v : Nat) (c : Char) (cs : List Char)
    (hc : c ≠ '=') (hv : b64Val c = some v) :
    a2bAux 2 left pads (c :: cs) =
      (a2bAux 3 (v % 4) 0 cs).map (fun r => (left * 16 + v / 4) :: r) := by
  simp only [a2bAux]
  rw [if_neg hc]
  simp only [hv]
  norm_num

theorem a2b_val3 (left pads v : Nat) (c : Char) (cs : List Char)
    (hc : c ≠ '=') (hv : b64Val c = some v) :
    a2bAux 3 left pads (c :: cs) =
      (a2bAux 0 0 0 cs).map (fun r => (left * 64 + v) :: r) := by
  simp only [a2bAux]
  rw [if_neg hc]
  simp only [hv]
  norm_num

theorem a2bAux_enc_quanta : ∀ (bs : List Nat), (∀ b ∈ bs, b < 256) →
    a2bAux 0 0 0 (b64EncodeChunks bs ++
      List.replicate (4 - (b64EncodeChunks bs).length % 4) '=') = some bs
  | [], _ => by decide
  | [b1], h => by
    have hb1 : b1 < 256 := h b1 (by simp)
    have s1 := b64Char_spec (b1 / 4) (by omega)
    have s2 := b64Char_spec (b1 % 4 * 16) (by omega)
    have hlist : b64EncodeChunks [b1] ++
        List.replicate (4 - (b64EncodeChunks [b1]).length % 4) '='
        = [b64Char (b1 / 4), b64Char (b1 % 4 * 16), '=', '='] := rfl
    rw [hlist]
    rw [a2b_val0 0 0 (b1 / 4) _ _ s1.2.1 s1.1]
    rw [a2b_val1 (b1 / 4) 0 (b1 % 4 * 16) _ _ s2.2.1 s2.1]
    rw [a2b_pad_cont 2 (b1 % 4 * 16 % 16) 0 _ (by omega)]
    rw [a2b_pad_stop 2 (b1 % 4 * 16 % 16) 1 _ (by omega)]
    simp only [Option.map_some']
    simp only [Option.some.injEq, List.cons.injEq, and_true]
    omega
  | [b1, b2], h => by
    have hb1 : b1 < 256 := h b1 (by simp)
    have hb2 : b2 < 256 := h b2 (by simp)
    have s1 := b64Char_spec (b1 / 4) (by omega)
    have s2 := b64Char_spec (b1 % 4 * 16 + b2 / 16) (by omega)
    have s3 := b64Char_spec (b2 % 16 * 4) (by omega)
    have hlist : b64EncodeChunks [b1, b2] ++
        List.replicate (4 - (b64EncodeChunks [b1, b2]).length % 4) '='
        = [b64Char (b1 / 4), b64Char (b1 % 4 * 16 + b2 / 16), b64Char (b2 % 16 * 4), '='] := rfl
    rw [hlist]
    rw [a2b_val0 0 0 (b1 / 4) _ _ s1.2.1 s1.1]
    rw [a2b_val1 (b1 / 4) 0 (b1 % 4 * 16 + b2 / 16) _ _ s2.2.1 s2.1]
    rw [a2b_val2 ((b1 % 4 * 16 + b2 / 16) % 16) 0 (b2 % 16 * 4) _ _ s3.2.1 s3.1]
    rw [a2b_pad_stop 3 (b2 % 16 * 4 % 4) 0 _ (by omega)]
    simp only [Option.map_some']
    simp only [Option.some.injEq, List.cons.injEq, and_true]
    constructor
    · omega
    · omega
  | b1 :: b2 :: b3 :: rest, h => by
    have hb1 : b1 < 256 := h b1 (by simp)
    have hb2 : b2 < 256 := h b2 (by simp)
    have hb3 : b3 < 256 := h b3 (by simp)
    have hrest : ∀ b ∈ rest, b < 256 := fun b hb => h b (by simp [hb])
    have ihr := a2bAux_enc_quanta rest hrest
    have s1 := b64Char_spec (b1 / 4) (by omega)
    have s2 := b64Char_spec (b1 % 4 * 16 + b2 / 16) (by omega)
    have s3 := b64Char_spec (b2 % 16 * 4 + b3 / 64) (by omega)
    have s4 := b64Char_spec (b3 % 64) (by omega)
    have henc : b64EncodeChunks (b1 :: b2 :: b3 :: rest)
        = b64Char (b1 / 4) :: b64Char (b1 % 4 * 16 + b2 / 16) ::
          b64Char (b2 % 16 * 4 + b3 / 64) :: b64Char (b3 % 64) :: b64EncodeChunks rest := rfl
    have hmod : (b64EncodeChunks (b1 :: b2 :: b3 :: rest)).length % 4
        = (b64EncodeChunks rest).length % 4 := by
      rw [henc]
      simp only [List.length_cons]
      omega
    rw [hmod, henc]
    simp only [List.cons_append]
    rw [a2b_val0 0 0 (b1 / 4) _ _ s1.2.1 s1.1]
    rw [a2b_val1 (b1 / 4) 0 (b1 % 4 * 16 + b2 / 16) _ _ s2.2.1 s2.1]
    rw [a2b_val2 ((b1 % 4 * 16 + b2 / 16) % 16) 0 (b2 % 16 * 4 + b3 / 64) _ _ s3.2.1 s3.1]
    rw [a2b_val3 ((b2 % 16 * 4 + b3 / 64) % 4) 0 (b3 % 64) _ _ s4.2.1 s4.1]
    rw [ihr]
    simp only [Option.map_some']
    simp only [Option.some.injEq, List.cons.injEq]
    refine ⟨by omega, by omega, by omega, trivial⟩

theorem b64_roundtrip (bs : List Nat) (h : ∀ b ∈ bs, b < 256) :
    _base64url_decode (_base64url_encode bs) = some bs := by
  have hascii : ((_base64url_encode bs).data.all (fun c => decide (c.toNat < 128))) = true := by
    rw [List.all_eq_true]
    intro c hc
    exact decide_eq_true (b64EncodeChunks_ascii bs h c hc)
  unfold _base64url_decode
  rw [if_pos hascii]
  exact a2bAux_enc_quanta bs h

theorem b64Encode_inj (xs ys : List Nat) (hx : ∀ b ∈ xs, b < 256) (hy : ∀ b ∈ ys, b < 256)
    (h : _base64url_encode xs = _base64url_encode ys) : xs = ys := by
  have h2 := congrArg _base64url_decode h
  rw [b64_roundtrip xs hx, b64_roundtrip ys hy] at h2
  exact Option.some.inj h2

/-! ## UTF-8 lemmas -/

theorem utf8EncodeChar_lt (c : Char) : ∀ b ∈ utf8EncodeChar c, b < 256 := by
  have hlt := charToNat_lt c
  simp only [utf8EncodeChar]
  split
  · intro b hb
    simp only [List.mem_singleton] at hb
    omega
  · split
    · intro b hb
      simp only [List.mem_cons, List.not_mem_nil, or_false] at hb
      rcases hb with rfl | rfl <;> omega
    · split
      · intro b hb
        simp only [List.mem_cons, List.not_mem_nil, or_false] at hb
        rcases hb with rfl | rfl | rfl <;> omega
      · intro b hb
        simp only [List.mem_cons, List.not_mem_nil, or_false] at hb
        rcases hb with rfl | rfl | rfl | rfl <;> omega

theorem utf8ListBytes_lt (l : List Char) : ∀ b ∈ utf8ListBytes l, b < 256 := by
  induction l with
  | nil => simp [utf8ListBytes]
  | cons c cs ih =>
    intro b hb
    simp only [utf8ListBytes, List.foldr_cons, List.mem_append] at hb
    rcases hb with hb | hb
    · exact utf8EncodeChar_lt c b hb
    · exact ih b hb

theorem utf8Bytes_lt (s : String) : ∀ b ∈ utf8Bytes s, b < 256 := utf8ListBytes_lt s.data

theorem utf8DecodeOne_enc (c : Char) (rest : List Nat) :
    utf8DecodeOne (utf8EncodeChar c ++ rest) = some (c, rest) := by
  have hlt := charToNat_lt c
  simp only [utf8EncodeChar]
  split
  · simp only [List.cons_append, List.nil_append, utf8DecodeOne]
    rw [if_pos (by omega), Char.ofNat_toNat]
  · split
    · simp only [List.cons_append, List.nil_append, utf8DecodeOne]
      rw [if_neg (by omega), if_pos (by omega)]
      have hv : (0xc0 + c.toNat / 64 - 0xc0) * 64 + (0x80 + c.toNat % 64 - 0x80) = c.toNat := by
        omega
      rw [hv, Char.ofNat_toNat]
    · split
      · simp only [List.cons_append, List.nil_append, utf8DecodeOne]
        rw [if_neg (by omega), if_neg (by omega), if_pos (by omega)]
        have hv : (0xe0 + c.toNat / 4096 - 0xe0) * 4096 + (0x80 + c.toNat / 64 % 64 - 0x80) * 64 +
            (0x80 + c.toNat % 64 - 0x80) = c.toNat := by omega
        rw [hv, Char.ofNat_toNat]
      · simp only [List.cons_append, List.nil_append, utf8DecodeOne]
        rw [if_neg (by omega), if_neg (by omega), if_neg (by omega)]
        have hv : (0xf0 + c.toNat / 262144 - 0xf0) * 262144 +
            (0x80 + c.toNat / 4096 % 64 - 0x80) * 4096 +
            (0x80 + c.toNat / 64 % 64 - 0x80) * 64 + (0x80 + c.toNat % 64 - 0x80) = c.toNat := by
          omega
        rw [hv, Char.ofNat_toNat]

theorem utf8EncodeChar_ne_nil (c : Char) : utf8EncodeChar c ≠ [] := by
  intro h
  have hd := utf8DecodeOne_enc c []
  rw [h] at hd
  simp [utf8DecodeOne] at hd

theorem utf8Code_inj (a b : Char) (as bs : List Nat)
    (h : utf8EncodeChar a ++ as = utf8EncodeChar b ++ bs) : a = b ∧ as = bs := by
  have ha := utf8DecodeOne_enc a as
  rw [h, utf8DecodeOne_enc b bs] at ha
  have := Option.some.inj ha
  exact ⟨(congrArg Prod.fst this).symm, (congrArg Prod.snd this).symm⟩

theorem utf8ListBytes_inj : ∀ (l m : List Char), utf8ListBytes l = utf8ListBytes m → l = m
  | [], [] => fun _ => rfl
  | [], c :: m => by
    intro h
    exfalso
    have h2 := h.symm
    simp only [utf8ListBytes, List.foldr_cons, List.foldr_nil] at h2
    rw [List.append_eq_nil] at h2
    exact utf8EncodeChar_ne_nil c h2.1
  | c :: l, [] => by
    intro h
    exfalso
    simp only [utf8ListBytes, List.foldr_cons, List.foldr_nil] at h
    rw [List.append_eq_nil] at h
    exact utf8EncodeChar_ne_nil c h.1
  | c :: l, d :: m => by
    intro h
    simp only [utf8ListBytes, List.foldr_cons] at h
    obtain ⟨hcd, htail⟩ := utf8Code_inj c d _ _ h
    rw [hcd, utf8ListBytes_inj l m htail]

theorem utf8Bytes_inj {s t : String} (h : utf8Bytes s = utf8Bytes t) : s = t :=
  strExt (utf8ListBytes_inj s.data t.data h)

/-! ## ASCII lemmas -/

theorem mapToNat_inj : ∀ (l m : List Char), l.map Char.toNat = m.map Char.toNat → l = m
  | [], [] => fun _ => rfl
  | [], _ :: _ => by simp
  | _ :: _, [] => by simp
  | c :: l, d :: m => by
    intro h
    simp only [List.map_cons, List.cons.injEq] at h
    rw [charToNat_inj h.1, mapToNat_inj l m h.2]

theorem asciiBytes_inj {s t : String} (h : asciiBytes s = asciiBytes t) : s = t :=
  strExt (mapToNat_inj s.data t.data h)

theorem asciiEncode_some (s : String) (h : ∀ c ∈ s.data, c.toNat < 128) :
    asciiEncode s = some (asciiBytes s) := by
  unfold asciiEncode
  rw [if_pos]
  simp only [List.all_eq_true, decide_eq_true_eq]
  exact h

/-! ## JSON string-escaping lemmas -/

theorem hexVal_hexDigitChar : ∀ v : Nat, v < 16 → hexVal (hexDigitChar v) = some v := by decide

theorem escDecode_u_plain (v : Nat) (hv16 : v < 0x10000) (hns : ¬ (0xd800 ≤ v ∧ v < 0xdc00))
    (tail : List Char) :
    escDecode ('\\' :: 'u' :: (hex4Chars v ++ tail)) = some (Char.ofNat v, tail) := by
  simp only [hex4Chars, List.cons_append, List.nil_append, escDecode]
  rw [if_pos (by trivial)]
  rw [if_neg (by decide), if_neg (by decide), if_neg (by decide), if_neg (by decide),
    if_neg (by decide), if_neg (by decide), if_neg (by decide), if_pos (by trivial)]
  rw [hexVal_hexDigitChar _ (by omega), hexVal_hexDigitChar _ (by omega),
    hexVal_hexDigitChar _ (by omega), hexVal_hexDigitChar _ (by omega)]
  have hval : v / 4096 % 16 * 4096 + v / 256 % 16 * 256 + v / 16 % 16 * 16 + v % 16 = v := by
    omega
  simp only [hval]
  rw [if_neg hns]

theorem escDecode_u_pair (v w : Nat) (hv1 : 0xd800 ≤ v) (hv2 : v < 0xdc00)
    (hw1 : 0xdc00 ≤ w) (hw2 : w < 0xe000) (tail : List Char) :
    escDecode ('\\' :: 'u' :: (hex4Chars v ++ ('\\' :: 'u' :: (hex4Chars w ++ tail)))) =
      some (Char.ofNat (0x10000 + (v - 0xd800) * 1024 + (w - 0xdc00)), tail) := by
  simp only [hex4Chars, List.cons_append, List.nil_append, escDecode]
  rw [if_pos (by trivial)]
  rw [if_neg (by decide), if_neg (by decide), if_neg (by decide), if_neg (by decide),
    if_neg (by decide), if_neg (by decide), if_neg (by decide), if_pos (by trivial)]
  rw [hexVal_hexDigitChar _ (by omega), hexVal_hexDigitChar _ (by omega),
    hexVal_hexDigitChar _ (by omega), hexVal_hexDigitChar _ (by omega)]
  have hval : v / 4096 % 16 * 4096 + v / 256 % 16 * 256 + v / 16 % 16 * 16 + v % 16 = v := by
    omega
  simp only [hval]
  rw [if_pos ⟨hv1, hv2⟩]
  rw [if_pos (by constructor <;> trivial)]
  rw [hexVal_hexDigitChar _ (by omega), hexVal_hexDigitChar _ (by omega),
    hexVal_hexDigitChar _ (by omega), hexVal_hexDigitChar _ (by omega)]
  have hwal : w / 4096 % 16 * 4096 + w / 256 % 16 * 256 + w / 16 % 16 * 16 + w % 16 = w := by
    omega
  simp only [hwal]
  rw [if_pos ⟨hw1, hw2⟩]

theorem escDecode_escChar (c : Char) (rest : List Char) :
    escDecode (escChar c ++ rest) = some (c, rest) := by
  have hlt := charToNat_lt c
  simp only [escChar]
  split
  · rename_i h
    subst h
    rfl
  · split
    · rename_i h
      subst h
      rfl
    · split
      · rename_i h
        subst h
        rfl
      · split
        · rename_i h
          subst h
          rfl
        · split
          · rename_i h
            subst h
            rfl
          · split
            · rename_i h
              have hc : c = Char.ofNat 8 := @charToNat_inj c (Char.ofNat 8) (by rw [h]; decide)
              subst hc
              rfl
            · split
              · rename_i h
                have hc : c = Char.ofNat 12 := @charToNat_inj c (Char.ofNat 12) (by rw [h]; decide)
                subst hc
                rfl
              · split
                · rename_i h8
                  simp only [List.cons_append]
                  rw [escDecode_u_plain c.toNat (by omega) (by omega) rest, Char.ofNat_toNat]
                · split
                  · rename_i h9
                    rename_i h1 h2 h3 h4 h5 h6 h7 h8
                    simp only [List.cons_append, List.nil_append, escDecode]
                    rw [if_neg h2]
                  · split
                    · rename_i h10
                      have hsur := charToNat_not_surrogate c
                      simp only [List.cons_append]
                      rw [escDecode_u_plain c.toNat (by omega) (by omega) rest, Char.ofNat_toNat]
                    · rename_i h10
                      simp only [List.cons_append, List.append_assoc]
                      rw [escDecode_u_pair (0xd800 + (c.toNat - 0x10000) / 1024)
                        (0xdc00 + (c.toNat - 0x10000) % 1024)
                        (by omega) (by omega) (by omega) (by omega) rest]
                      have hn : 0x10000 +
                          (0xd800 + (c.toNat - 0x10000) / 1024 - 0xd800) * 1024 +
                          (0xdc00 + (c.toNat - 0x10000) % 1024 - 0xdc00) = c.toNat := by omega
                      rw [hn, Char.ofNat_toNat]

theorem escChar_ne_nil (c : Char) : escChar c ≠ [] := by
  intro h
  have hd := escDecode_escChar c []
  rw [h] at hd
  simp [escDecode] at hd

theorem escChar_code_inj (a b : Char) (as bs : List Char)
    (h : escChar a ++ as = escChar b ++ bs) : a = b ∧ as = bs := by
  have ha := escDecode_escChar a as
  rw [h, escDecode_escChar b bs] at ha
  have := Option.some.inj ha
  exact ⟨(congrArg Prod.fst this).symm, (congrArg Prod.snd this).symm⟩

theorem escListChars_inj : ∀ (l m : List Char), escListChars l = escListChars m → l = m
  | [], [] => fun _ => rfl
  | [], c :: m => by
    intro h
    exfalso
    have h2 := h.symm
    simp only [escListChars, List.foldr_cons, List.foldr_nil] at h2
    rw [List.append_eq_nil] at h2
    exact escChar_ne_nil c h2.1
  | c :: l, [] => by
    intro h
    exfalso
    simp only [escListChars, List.foldr_cons, List.foldr_nil] at h
    rw [List.append_eq_nil] at h
    exact escChar_ne_nil c h.1
  | c :: l, d :: m => by
    intro h
    simp only [escListChars, List.foldr_cons] at h
    obtain ⟨hcd, htail⟩ := escChar_code_inj c d _ _ h
    rw [hcd, escListChars_inj l m htail]

theorem escString_inj {s t : String} (h : escString s = escString t) : s = t :=
  strExt (escListChars_inj s.data t.data h)

theorem strData_mk (l : List Char) : (String.mk l).data = l := rfl

theorem canonical_cancel_ann {P A2 A M G T : String}
    (h : P ++ A2 ++ M ++ G ++ T = P ++ A ++ M ++ G ++ T) : A2 = A := by
  have hd := congrArg String.data h
  simp only [strData_append, List.append_assoc] at hd
  have h1 := List.append_cancel_left hd
  exact strExt (List.append_cancel_right h1)

theorem canonical_cancel_gh {P A M G2 G T : String}
    (h : P ++ A ++ M ++ G2 ++ T = P ++ A ++ M ++ G ++ T) : G2 = G := by
  have hd := congrArg String.data h
  simp only [strData_append, List.append_assoc] at hd
  have h1 := List.append_cancel_left (List.append_cancel_left (List.append_cancel_left hd))
  exact strExt (List.append_cancel_right h1)

theorem jString_inj {s t : String} (h : jString s = jString t) : s = t := by
  apply escString_inj
  have hd := congrArg String.data h
  have hq : ("\"" : String).data = ['\"'] := rfl
  simp only [jString, strData_append, strData_mk, hq, List.append_assoc] at hd
  have h1 : escString s ++ ['\"'] = escString t ++ ['\"'] := List.append_cancel_left hd
  exact List.append_cancel_right h1

/-! ## Annotations and the canonical signing bytes (C4) -/

/-- Counterexample to C4 as stated: two events that differ only in their
annotations map (the all-defaults event, and the same event with one
annotation added) have different canonical signing bytes, because
events._canonical_json excludes only event_signature and signature_key_id
and therefore serializes annotations into the signed payload. -/
theorem C4_annotations_counterexample :
    ¬ (_canonical_json emptyEvent = _canonical_json annotatedEvent) := by decide

/-- C4 (amended): annotations are not an input of the governance-hash
computation, but they ARE included in the canonical signing bytes: whenever
two events differ only in their annotations map and the serialized
annotations objects differ, the canonical JSON text and the canonical
signing bytes differ, so a signature over one does not cover the other. -/
theorem C4_annotations_amended (e : Event) (a2 : List (String × String))
    (hne : jAnnotations a2 ≠ jAnnotations e.annotations) :
    canonicalJsonStr { e with annotations := a2 } ≠ canonicalJsonStr e ∧
    _canonical_json { e with annotations := a2 } ≠ _canonical_json e := by
  have hstr : canonicalJsonStr { e with annotations := a2 } ≠ canonicalJsonStr e := by
    intro h
    apply hne
    have h2 : canonicalPre e ++ jAnnotations a2 ++ canonicalMid e ++
        jString e.governance_hash ++ canonicalTail e =
        canonicalPre e ++ jAnnotations e.annotations ++ canonicalMid e ++
        jString e.governance_hash ++ canonicalTail e := h
    exact canonical_cancel_ann h2
  exact ⟨hstr, fun hb => hstr (utf8Bytes_inj hb)⟩

/-- Witness for the amended C4 at the concrete counterexample pair. -/
theorem C4_annotations_amended_witness :
    canonicalJsonStr { emptyEvent with annotations := [("note", "informational")] } ≠
      canonicalJsonStr emptyEvent :=
  (C4_annotations_amended emptyEvent [("note", "informational")] (by decide)).1

/-! ## Sign/verify lemmas (C2, C7) -/

theorem jws_header_b64_not_dot (key_id : String) :
    ∀ c ∈ (jws_header_b64 key_id).data, c ≠ '.' :=
  b64EncodeChunks_not_dot _ (utf8Bytes_lt _)

theorem jws_header_b64_ascii (key_id : String) :
    ∀ c ∈ (jws_header_b64 key_id).data, c.toNat < 128 :=
  b64EncodeChunks_ascii _ (utf8Bytes_lt _)

theorem take_len_append {α : Type} (l1 l2 : List α) (k : Nat) (h : l1.length = k) :
    (l1 ++ l2).take k = l1 := by
  subst h
  exact List.take_left l1 l2

theorem drop_len_append {α : Type} (l1 l2 : List α) (k : Nat) (h : l1.length = k) :
    (l1 ++ l2).drop k = l2 := by
  subst h
  exact List.drop_left l1 l2

theorem sigBytes_lt (rs : Nat × Nat) :
    ∀ b ∈ natToBytesBE 32 rs.1 ++ natToBytesBE 32 rs.2, b < 256 := by
  intro b hb
  rcases List.mem_append.mp hb with hb | hb
  · exact natToBytesBE_lt 32 rs.1 b hb
  · exact natToBytesBE_lt 32 rs.2 b hb

/-- On any event whose event_signature is a well-formed JWS token with the
fixed-width encoded signature, verification reduces to the ECDSA primitive
applied to the signing input recomputed from the event as given. -/
theorem verify_on_signed {Kpub : Type} (ecdsaVerify : Kpub → List Nat → Nat × Nat → Bool)
    (e' : Event) (pk : Kpub) (key_id pb : String) (rs : Nat × Nat)
    (hr : rs.1 < 2 ^ 256) (hs : rs.2 < 2 ^ 256)
    (hpb : ∀ c ∈ pb.data, c ≠ '.')
    (hsig : e'.event_signature = jws_header_b64 key_id ++ "." ++ pb ++ "." ++
      _base64url_encode (natToBytesBE 32 rs.1 ++ natToBytesBE 32 rs.2)) :
    verify_event_signature ecdsaVerify e' pk =
      ecdsaVerify pk (asciiBytes (jws_header_b64 key_id ++ "." ++ jws_payload_b64 e')) rs := by
  have hSdata : (_base64url_encode (natToBytesBE 32 rs.1 ++ natToBytesBE 32 rs.2)).data
      = b64EncodeChunks (natToBytesBE 32 rs.1 ++ natToBytesBE 32 rs.2) :=
    strData_mk _
  have hS : ∀ c ∈ (_base64url_encode (natToBytesBE 32 rs.1 ++ natToBytesBE 32 rs.2)).data,
      c ≠ '.' := by
    rw [hSdata]
    exact b64EncodeChunks_not_dot _ (sigBytes_lt rs)
  have hsplit := pySplit_three (jws_header_b64 key_id) pb
    (_base64url_encode (natToBytesBE 32 rs.1 ++ natToBytesBE 32 rs.2))
    (jws_header_b64_not_dot key_id) hpb hS
  have hne : jws_header_b64 key_id ++ "." ++ pb ++ "." ++
      _base64url_encode (natToBytesBE 32 rs.1 ++ natToBytesBE 32 rs.2) ≠ "" := by
    apply strNe_empty_of_mem_dot
    simp [strData_append]
  have hascii : ∀ c ∈ (jws_header_b64 key_id ++ "." ++
      _base64url_encode (_canonical_json e')).data, c.toNat < 128 := by
    intro c hc
    simp only [strData_append, List.mem_append] at hc
    rcases hc with hc | hc
    · rcases hc with hc | hc
      · exact jws_header_b64_ascii key_id c hc
      · have : c = '.' := by simpa using hc
        subst this
        decide
    · exact b64EncodeChunks_ascii _ (utf8Bytes_lt _) c hc
  have hlen64 : (natToBytesBE 32 rs.1 ++ natToBytesBE 32 rs.2).length = 64 := by
    simp [natToBytesBE_length]
  have htake : (natToBytesBE 32 rs.1 ++ natToBytesBE 32 rs.2).take 32 = natToBytesBE 32 rs.1 :=
    take_len_append _ _ _ (natToBytesBE_length 32 rs.1)
  have hdrop : (natToBytesBE 32 rs.1 ++ natToBytesBE 32 rs.2).drop 32 = natToBytesBE 32 rs.2 :=
    drop_len_append _ _ _ (natToBytesBE_length 32 rs.1)
  have hpow : (256 : Nat) ^ 32 = 2 ^ 256 := by norm_num
  have hr1 : bytesToNatBE (natToBytesBE 32 rs.1) = rs.1 :=
    bytesToNatBE_natToBytesBE 32 rs.1 (by rw [hpow]; exact hr)
  have hs1 : bytesToNatBE (natToBytesBE 32 rs.2) = rs.2 :=
    bytesToNatBE_natToBytesBE 32 rs.2 (by rw [hpow]; exact hs)
  simp only [verify_event_signature, hsig, hne, if_false, hsplit]
  rw [asciiEncode_some _ hascii]
  rw [b64_roundtrip _ (sigBytes_lt rs)]
  simp only [hlen64, htake, hdrop, hr1, hs1]
  simp only [Prod.mk.eta]
  rw [if_neg (by omega)]
  rfl

theorem jws_payload_b64_not_dot (e : Event) : ∀ c ∈ (jws_payload_b64 e).data, c ≠ '.' :=
  b64EncodeChunks_not_dot _ (utf8Bytes_lt _)

/-- C2 (amended): signing returns a new record that agrees with the input on
every field except event_signature (the three-part header.payload.signature
token) and signature_key_id (the given key identifier); verification of the
signed record succeeds against a primitive that accepts the signature
(matching key) and fails against one that rejects it (non-matching key).
Mutating a field that is serialized into the canonical signing payload
(governance_hash) before verifying makes verification fail, since the
payload is recomputed from the record as given; but mutating
signature_key_id — which _canonical_json excludes — leaves verification
succeeding, refuting the original claim's "mutating any field".  The
external ECDSA P-256 primitive enters only through the stated hypotheses,
which are its standard correctness and rejection properties at the relevant
inputs. -/
theorem C2_sign_verify_amended {Kpriv Kpub : Type}
    (ecdsaSign : Kpriv → List Nat → Nat × Nat)
    (ecdsaVerify : Kpub → List Nat → Nat × Nat → Bool)
    (e : Event) (sk : Kpriv) (pk pkOther : Kpub) (key_id g2 kid2 : String)
    (hr : (ecdsaSign sk (jws_signing_input e key_id)).1 < 2 ^ 256)
    (hs : (ecdsaSign sk (jws_signing_input e key_id)).2 < 2 ^ 256)
    (hok : ecdsaVerify pk (jws_signing_input e key_id)
      (ecdsaSign sk (jws_signing_input e key_id)) = true)
    (hother : ecdsaVerify pkOther (jws_signing_input e key_id)
      (ecdsaSign sk (jws_signing_input e key_id)) = false)
    (hreject : ∀ m, m ≠ jws_signing_input e key_id →
      ecdsaVerify pk m (ecdsaSign sk (jws_signing_input e key_id)) = false)
    (hg2 : g2 ≠ e.governance_hash) :
    sign_event ecdsaSign e sk key_id =
      { e with
        event_signature := jws_header_b64 key_id ++ "." ++ jws_payload_b64 e ++ "." ++
          _base64url_encode (natToBytesBE 32 (ecdsaSign sk (jws_signing_input e key_id)).1 ++
            natToBytesBE 32 (ecdsaSign sk (jws_signing_input e key_id)).2)
        signature_key_id := key_id } ∧
    verify_event_signature ecdsaVerify (sign_event ecdsaSign e sk key_id) pk = true ∧
    verify_event_signature ecdsaVerify (sign_event ecdsaSign e sk key_id) pkOther = false ∧
    verify_event_signature ecdsaVerify
      { sign_event ecdsaSign e sk key_id with governance_hash := g2 } pk = false ∧
    verify_event_signature ecdsaVerify
      { sign_event ecdsaSign e sk key_id with signature_key_id := kid2 } pk = true := by
  have hsigform : (sign_event ecdsaSign e sk key_id).event_signature =
      jws_header_b64 key_id ++ "." ++ jws_payload_b64 e ++ "." ++
        _base64url_encode (natToBytesBE 32 (ecdsaSign sk (jws_signing_input e key_id)).1 ++
          natToBytesBE 32 (ecdsaSign sk (jws_signing_input e key_id)).2) := rfl
  have hsigform2 : ({ sign_event ecdsaSign e sk key_id with
      governance_hash := g2 } : Event).event_signature =
      jws_header_b64 key_id ++ "." ++ jws_payload_b64 e ++ "." ++
        _base64url_encode (natToBytesBE 32 (ecdsaSign sk (jws_signing_input e key_id)).1 ++
          natToBytesBE 32 (ecdsaSign sk (jws_signing_input e key_id)).2) := rfl
  refine ⟨rfl, ?_, ?_, ?_, ?_⟩
  · rw [verify_on_signed ecdsaVerify (sign_event ecdsaSign e sk key_id) pk key_id
      (jws_payload_b64 e) (ecdsaSign sk (jws_signing_input e key_id)) hr hs
      (jws_payload_b64_not_dot e) hsigform]
    exact hok
  · rw [verify_on_signed ecdsaVerify (sign_event ecdsaSign e sk key_id) pkOther key_id
      (jws_payload_b64 e) (ecdsaSign sk (jws_signing_input e key_id)) hr hs
      (jws_payload_b64_not_dot e) hsigform]
    exact hother
  · rw [verify_on_signed ecdsaVerify { sign_event ecdsaSign e sk key_id with
      governance_hash := g2 } pk key_id
      (jws_payload_b64 e) (ecdsaSign sk (jws_signing_input e key_id)) hr hs
      (jws_payload_b64_not_dot e) hsigform2]
    apply hreject
    intro heq
    have heq2 : asciiBytes (jws_header_b64 key_id ++ "." ++
        jws_payload_b64 { sign_event ecdsaSign e sk key_id with governance_hash := g2 }) =
        asciiBytes (jws_header_b64 key_id ++ "." ++ jws_payload_b64 e) := heq
    have h1 := asciiBytes_inj heq2
    have h2 := strAppend_left_cancel h1
    have h3 := b64Encode_inj
      (_canonical_json { sign_event ecdsaSign e sk key_id with governance_hash := g2 })
      (_canonical_json e) (utf8Bytes_lt _) (utf8Bytes_lt _) h2
    have h4 : canonicalJsonStr { sign_event ecdsaSign e sk key_id with governance_hash := g2 } =
        canonicalJsonStr e := utf8Bytes_inj h3
    have h5 : canonicalPre e ++ jAnnotations e.annotations ++ canonicalMid e ++
        jString g2 ++ canonicalTail e =
        canonicalPre e ++ jAnnotations e.annotations ++ canonicalMid e ++
        jString e.governance_hash ++ canonicalTail e := h4
    exact hg2 (jString_inj (canonical_cancel_gh h5))
  · rw [verify_on_signed ecdsaVerify { sign_event ecdsaSign e sk key_id with
      signature_key_id := kid2 } pk key_id
      (jws_payload_b64 e) (ecdsaSign sk (jws_signing_input e key_id)) hr hs
      (jws_payload_b64_not_dot e) rfl]
    exact hok

/-- Counterexample to C2's original universal "mutating any field of the
signed record before verifying makes verify return false": with the concrete
event and a stand-in primitive accepting exactly the true signing input,
mutating signature_key_id after signing leaves verification succeeding,
because _canonical_json excludes signature_key_id from the signed payload. -/
theorem C2_any_field_counterexample :
    verify_event_signature c2VerifyToy
      { sign_event c2SignToy c2Event 0 "key.main" with signature_key_id := "key.other" } 1 =
      true := by
  rw [verify_on_signed c2VerifyToy
      { sign_event c2SignToy c2Event 0 "key.main" with signature_key_id := "key.other" } 1
      "key.main" (jws_payload_b64 c2Event) (1, 2) (by decide) (by decide)
      (jws_payload_b64_not_dot c2Event) rfl]
  have hpay : jws_payload_b64
      ({ sign_event c2SignToy c2Event 0 "key.main" with
        signature_key_id := "key.other" } : Event) = jws_payload_b64 c2Event := rfl
  rw [hpay]
  simp only [c2VerifyToy, Bool.and_eq_true, decide_eq_true_eq]
  exact ⟨⟨trivial, rfl⟩, trivial⟩

/-- Witness for C2 with a concrete event and a stand-in primitive that
accepts exactly the matching key, the true signing input, and the produced
signature: verification succeeds for the matching key, fails for another
key, fails after tampering with governance_hash, and still succeeds after
changing signature_key_id. -/
theorem C2_sign_verify_amended_witness :
    verify_event_signature c2VerifyToy (sign_event c2SignToy c2Event 0 "key.main") 1 = true ∧
    verify_event_signature c2VerifyToy (sign_event c2SignToy c2Event 0 "key.main") 2 = false ∧
    verify_event_signature c2VerifyToy
      { sign_event c2SignToy c2Event 0 "key.main" with governance_hash := "tampered" } 1 =
      false ∧
    verify_event_signature c2VerifyToy
      { sign_event c2SignToy c2Event 0 "key.main" with signature_key_id := "key.alt" } 1 =
      true := by
  obtain ⟨-, h2, h3, h4, h5⟩ :=
    C2_sign_verify_amended c2SignToy c2VerifyToy c2Event 0 1 2 "key.main" "tampered" "key.alt"
      (by decide) (by decide)
      (by simp [c2VerifyToy, c2SignToy])
      (by simp [c2VerifyToy, c2SignToy])
      (fun m hm => by simp [c2VerifyToy, c2SignToy, hm])
      (by decide)
  exact ⟨h2, h3, h4, h5⟩

/-- C7: verification is a total Boolean function (the source catches every
exception, modelled here by totality) returning false when the signature is
missing, when the token does not split into exactly three dot-separated
parts, when the signature segment does not decode, when the decoded
signature is not exactly 64 bytes, and when the cryptographic primitive
itself rejects. -/
theorem C7_verify_false_cases {Kpub : Type} (ecdsaVerify : Kpub → List Nat → Nat × Nat → Bool)
    (e : Event) (pk : Kpub) :
    (e.event_signature = "" → verify_event_signature ecdsaVerify e pk = false) ∧
    ((pySplit '.' e.event_signature).length ≠ 3 →
      verify_event_signature ecdsaVerify e pk = false) ∧
    (∀ h p sb, pySplit '.' e.event_signature = [h, p, sb] →
      _base64url_decode sb = none → verify_event_signature ecdsaVerify e pk = false) ∧
    (∀ h p sb bs, pySplit '.' e.event_signature = [h, p, sb] →
      _base64url_decode sb = some bs → bs.length ≠ 64 →
      verify_event_signature ecdsaVerify e pk = false) ∧
    (∀ h p sb bs input, pySplit '.' e.event_signature = [h, p, sb] →
      asciiEncode (h ++ "." ++ _base64url_encode (_canonical_json e)) = some input →
      _base64url_decode sb = some bs → bs.length = 64 →
      ecdsaVerify pk input (bytesToNatBE (bs.take 32), bytesToNatBE (bs.drop 32)) = false →
      verify_event_signature ecdsaVerify e pk = false) := by
  by_cases hsig : e.event_signature = ""
  · have hempty : verify_event_signature ecdsaVerify e pk = false := by
      simp [verify_event_signature, hsig]
    have hsplitempty : pySplit '.' e.event_signature = [""] := by
      rw [hsig]
      rfl
    refine ⟨fun _ => hempty, fun _ => hempty, ?_, ?_, ?_⟩
    · intro h p sb hsp
      rw [hsplitempty] at hsp
      simp at hsp
    · intro h p sb bs hsp
      rw [hsplitempty] at hsp
      simp at hsp
    · intro h p sb bs input hsp
      rw [hsplitempty] at hsp
      simp at hsp
  · refine ⟨fun h => absurd h hsig, ?_, ?_, ?_, ?_⟩
    · intro hlen
      rcases hsp : pySplit '.' e.event_signature with _ | ⟨x, _ | ⟨y, _ | ⟨z, _ | ⟨w, r⟩⟩⟩⟩ <;>
        simp [verify_event_signature, hsig, hsp] at hlen ⊢
    · intro h p sb hsp hdec
      simp only [verify_event_signature, hsig, if_false, hsp]
      rcases hae : asciiEncode (h ++ "." ++ _base64url_encode (_canonical_json e)) with _ | input
      · simp [hae]
      · simp [hae, hdec]
    · intro h p sb bs hsp hdec hlen
      simp only [verify_event_signature, hsig, if_false, hsp]
      rcases hae : asciiEncode (h ++ "." ++ _base64url_encode (_canonical_json e)) with _ | input
      · simp [hae]
      · simp [hae, hdec, hlen]
    · intro h p sb bs input hsp hae hdec hlen hrej
      simp only [verify_event_signature, hsig, if_false, hsp]
      simp [hae, hdec, hlen, hrej]

theorem signing_input_ascii (h : String) (e : Event)
    (hh : ∀ c ∈ h.data, c.toNat < 128) :
    ∀ c ∈ (h ++ "." ++ _base64url_encode (_canonical_json e)).data, c.toNat < 128 := by
  intro c hc
  rw [strData_append, strData_append] at hc
  rcases List.mem_append.mp hc with hc1 | hc2
  · rcases List.mem_append.mp hc1 with hca | hcb
    · exact hh c hca
    · have hd : (".").data = ['.'] := rfl
      rw [hd, List.mem_singleton] at hcb
      subst hcb
      decide
  · exact b64EncodeChunks_ascii _ (utf8Bytes_lt _) c hc2

/-- Witness for C7: concrete events exercising the missing-signature,
two-part-token, undecodable-signature, wrong-length and primitive-rejection
paths, all returning false. -/
theorem C7_verify_false_cases_witness :
    verify_event_signature c7VerifyFalse emptyEvent 0 = false ∧
    verify_event_signature c7VerifyFalse
      { emptyEvent with event_signature := "one.two" } 0 = false ∧
    verify_event_signature c7VerifyFalse
      { emptyEvent with event_signature := "aGVhZA.cGF5.A" } 0 = false ∧
    verify_event_signature c7VerifyFalse
      { emptyEvent with event_signature := "aGVhZA.cGF5.QUJD" } 0 = false ∧
    verify_event_signature c7VerifyFalse
      { emptyEvent with event_signature :=
          "aGVhZA.cGF5." ++ _base64url_encode (List.replicate 64 0) } 0 = false :=
  ⟨(C7_verify_false_cases c7VerifyFalse emptyEvent 0).1 rfl,
   (C7_verify_false_cases c7VerifyFalse
      { emptyEvent with event_signature := "one.two" } 0).2.1 (by decide),
   (C7_verify_false_cases c7VerifyFalse
      { emptyEvent with event_signature := "aGVhZA.cGF5.A" } 0).2.2.1
      "aGVhZA" "cGF5" "A" (by decide) (by decide),
   (C7_verify_false_cases c7VerifyFalse
      { emptyEvent with event_signature := "aGVhZA.cGF5.QUJD" } 0).2.2.2.1
      "aGVhZA" "cGF5" "QUJD" [65, 66, 67] (by decide) (by decide) (by decide),
   (C7_verify_false_cases c7VerifyFalse
      { emptyEvent with event_signature :=
          "aGVhZA.cGF5." ++ _base64url_encode (List.replicate 64 0) } 0).2.2.2.2
      "aGVhZA" "cGF5" (_base64url_encode (List.replicate 64 0)) (List.replicate 64 0)
      (asciiBytes ("aGVhZA" ++ "." ++ _base64url_encode (_canonical_json
        { emptyEvent with event_signature :=
            "aGVhZA.cGF5." ++ _base64url_encode (List.replicate 64 0) })))
      (by decide)
      (asciiEncode_some _ (signing_input_ascii "aGVhZA" _ (by decide)))
      (b64_roundtrip (List.replicate 64 0) (by decide))
      (by decide)
      rfl⟩

end AGP
